import Mathlib

/-!
Verification of the `uapg` PostgreSQL history backend
(`src/uapg/history_pgsql.py`) against its natural-language specification.

The storage backend is shallowly embedded: timestamps are integers, the
database is explicit state (lists of rows), every SQL round trip is recorded
as a `DbCall`, and failure injection replaces the network.  Python exception
control flow (`try`/`except`, early `return`) is made explicit in each
operation's definition.
-/

set_option linter.unusedVariables false

namespace Uapg

/-- Timestamps (`datetime` values) are modelled as integers. -/
abbrev Time := Int

/-- An OPC UA node identifier value (`ua.NodeId.Identifier`) is either a
numeric or a string identifier. -/
inductive UaIdentifier
  | num (n : Nat)
  | str (s : String)
deriving DecidableEq

/-- The textual rendering of an identifier, as produced by a Python f-string:
integers render in decimal, strings render as themselves. -/
def UaIdentifier.render : UaIdentifier → String
  | .num n => toString n
  | .str s => s

/-- `ua.NodeId`, restricted to the parts the backend consumes. -/
structure NodeId where
  NamespaceIndex : Nat
  Identifier : UaIdentifier
deriving DecidableEq

/-- `HistoryPgSQL._get_table_name`: the f-string
`table_type ++ underscore ++ NamespaceIndex ++ underscore ++ Identifier`. -/
def _get_table_name (node_id : NodeId) (table_type : String) : String :=
  table_type ++ "_" ++ toString node_id.NamespaceIndex ++ "_" ++ node_id.Identifier.render

/-- Python regex `\w` on `str` patterns matches Unicode word characters, not
just ASCII `[A-Za-z0-9_]`.  We model the ASCII word characters exactly,
together with the non-ASCII letter ranges exercised in this development
(Latin-1 supplement letters and Cyrillic). -/
def isPythonWordChar (c : Char) : Bool :=
  c.isAlphanum || c == '_' ||
  (0xC0 ≤ c.toNat && c.toNat ≤ 0xFF && c.toNat != 0xD7 && c.toNat != 0xF7) ||
  (0x400 ≤ c.toNat && c.toNat ≤ 0x4FF)

/-- Whether Python `re.match` of the anchored pattern of one-or-more word or
hyphen characters succeeds on `name`.  Python `$` also matches just before a
single trailing newline, which is modelled by dropping such a newline. -/
def matchesTablePattern (name : String) : Bool :=
  let l := name.data
  let core := if l.getLast? == some '\n' then l.dropLast else l
  !core.isEmpty && core.all (fun c => isPythonWordChar c || c == '-')

/-- `validate_table_name`: returns `true` when the name is accepted; the
source raises `ValueError` (the spec's `InvalidIdentifier`) exactly when this
returns `false`. -/
def validate_table_name (name : String) : Bool :=
  matchesTablePattern name

/-- `ua.get_win_epoch()`: the protocol's sentinel epoch (1601-01-01 UTC),
a fixed timestamp constant (seconds relative to the Unix epoch). -/
def win_epoch : Time := -11644473600

/-- Sort direction of the range query. -/
inductive SqlOrder
  | ASC
  | DESC
deriving DecidableEq

/-- `timedelta(days=1)` in seconds. -/
def oneDay : Int := 86400

/-- The tuple returned by `HistoryPgSQL._get_bounds`. -/
structure Bounds where
  start_time : Time
  end_time : Time
  order : SqlOrder
  limit : Int
deriving DecidableEq

/-- `HistoryPgSQL._get_bounds`.  `now` stands for `datetime.now(timezone.utc)`.
The final line of the source is Python truthiness:
`limit = nb_values if nb_values else 10000`, where `None` and `0` are falsy
and every other integer (negative included) is truthy. -/
def _get_bounds (start end_ : Option Time) (nb_values : Option Int) (now : Time) : Bounds :=
  let order := SqlOrder.ASC
  let startPinned := start = none ∨ start = some win_epoch
  let order := if startPinned then SqlOrder.DESC else order
  let start := if startPinned then win_epoch else start.getD 0
  let end_ := if end_ = none ∨ end_ = some win_epoch then now + oneDay else end_.getD 0
  let start_time := if start < end_ then start else end_
  let end_time := if start < end_ then end_ else start
  let order := if start < end_ then order else SqlOrder.DESC
  let limit : Int :=
    match nb_values with
    | none => 10000
    | some v => if v = 0 then 10000 else v
  ⟨start_time, end_time, order, limit⟩

/-! ### Value codec and protocol values

The spec treats the binary value codec as an external, lossless capability.
We model an encoded variant as an opaque wrapper so that
`variant_from_binary (variant_to_binary v) = v` holds definitionally. -/

/-- A protocol value carried inside a variant. -/
inductive UaValue
  | int (i : Int)
  | str (s : String)
  | bool (b : Bool)
  | null
deriving DecidableEq

/-- Python `str(...)` of a protocol value. -/
def UaValue.render : UaValue → String
  | .int i => toString i
  | .str s => s
  | .bool b => if b then "True" else "False"
  | .null => "None"

/-- `ua.Variant`: a value together with its variant-type name. -/
structure Variant where
  Value : UaValue
  VariantTypeName : String
deriving DecidableEq

/-- Opaque binary encoding of a variant (`variant_to_binary`). -/
inductive EncodedVariant
  | enc (v : Variant)
deriving DecidableEq

/-- Modelled from the spec: the external value codec's encoder, assumed
lossless and self-describing. -/
def variant_to_binary (v : Variant) : EncodedVariant := .enc v

/-- Modelled from the spec: the external value codec's decoder. -/
def variant_from_binary : EncodedVariant → Variant
  | .enc v => v

/-- `ua.Variant(None)`, produced for NULL event columns on read. -/
def nullVariant : Variant := ⟨.null, "Null"⟩

/-- `ua.DataValue`, restricted to the fields the backend reads and writes. -/
structure DataValue where
  Value : Variant
  SourceTimestamp : Time
  ServerTimestamp : Time
  StatusCode : Int
deriving DecidableEq

/-! ### Database model

Each SQL round trip the backend performs is recorded as a `DbCall`; the per
entity tables are explicit lists of rows.  Round trips executed inside helper
functions that only repair schema are recorded as single grouped calls. -/

/-- A row of a per-variable value table. -/
structure VarRow where
  id : Nat
  servertimestamp : Time
  sourcetimestamp : Time
  statuscode : Int
  value : String
  varianttype : String
  variantbinary : EncodedVariant
deriving DecidableEq

/-- A row of a per-source event table: dynamic columns are an association
list from column name to encoded value. -/
structure EvtRow where
  id : Nat
  timestamp : Time
  eventtypename : String
  fields : List (String × EncodedVariant)
deriving DecidableEq

/-- Conditions of the retention `DELETE` statements. -/
inductive DelCond
  | olderThan (limitTs : Time)
  | countMin (count : Int)
  | evtOlderThan (limitTs : Time)
deriving DecidableEq

/-- One SQL round trip (`_execute` / `_fetch` / `_fetchval`). -/
inductive DbCall
  | createVarTable (table : String)
  | ensureVarStructure (table : String)
  | dropConflictingIdx (table : String)
  | createHypertable (table : String)
  | createIndexId (table : String)
  | createIndexTs (table : String)
  | insertValue (table : String) (row : VarRow)
  | deleteFrom (table : String) (cond : DelCond)
  | tableExistsCheck (table : String)
  | countAll (table : String)
  | countRange (table : String) (b1 b2 : Time)
  | selectValues (table : String) (b1 b2 : Time) (order : SqlOrder) (limit : Int)
  | createEvtTable (table : String)
  | ensureEvtStructure (table : String)
  | checkColumn (table : String) (col : String)
  | addColumn (table : String) (col : String)
  | checkTimestampColumn (table : String)
  | insertEvent (table : String) (itime : Time) (etype : String) (vals : List EncodedVariant)
  | selectEvents (table : String) (b1 b2 : Time) (order : SqlOrder) (limit : Int)
deriving DecidableEq

/-- Python exceptions that can escape an operation. -/
inductive PyErr
  | keyError
  | valueError
  | typeError
deriving DecidableEq

/-- A stored entry of the shared `_datachanges_period` dictionary:
`new_historized_node` stores the pair `(period, count)`, while
`new_historized_event` stores the bare period. -/
inductive Entry
  | node (period : Option Int) (count : Int)
  | evt (period : Option Int)
deriving DecidableEq

/-- Dictionary lookup in `_datachanges_period`. -/
def lookupEntry (dcp : List (NodeId × Entry)) (n : NodeId) : Option Entry :=
  (dcp.find? (fun p => p.1 == n)).map (·.2)

/-- Dictionary assignment in `_datachanges_period`. -/
def updateEntry (dcp : List (NodeId × Entry)) (n : NodeId) (e : Entry) :
    List (NodeId × Entry) :=
  if (dcp.find? (fun p => p.1 == n)).isSome then
    dcp.map (fun p => if p.1 == n then (n, e) else p)
  else dcp ++ [(n, e)]

/-- Dictionary lookup in `_event_fields`. -/
def lookupFields (ef : List (NodeId × List String)) (n : NodeId) : Option (List String) :=
  (ef.find? (fun p => p.1 == n)).map (·.2)

/-- Dictionary assignment in `_event_fields`. -/
def updateFields (ef : List (NodeId × List String)) (n : NodeId) (fs : List String) :
    List (NodeId × List String) :=
  if (ef.find? (fun p => p.1 == n)).isSome then
    ef.map (fun p => if p.1 == n then (n, fs) else p)
  else ef ++ [(n, fs)]

/-! ### Write path: `save_node_value` -/

/-- Failure injection for the value write path. -/
structure SaveEnv where
  insertFails : Bool
  deleteAgeFails : Bool
  deleteCountFails : Bool
deriving DecidableEq

/-- The row built by the `INSERT` of `save_node_value` (the serial `_id` is
supplied by the database). -/
def mkVarRow (id : Nat) (dv : DataValue) : VarRow :=
  ⟨id, dv.ServerTimestamp, dv.SourceTimestamp, dv.StatusCode,
   dv.Value.Value.render, dv.Value.VariantTypeName, variant_to_binary dv.Value⟩

/-- The minimum source timestamp of a table (`SELECT MIN(sourcetimestamp)`). -/
def minSourceTs (rows : List VarRow) : Option Time :=
  (rows.map (·.sourcetimestamp)).min?

/-- Effect on the table of the count-retention statement: delete all rows
whose source timestamp equals the minimum, but only when the row count
exceeds `count` (otherwise the subquery yields NULL and nothing matches). -/
def countDelete (count : Int) (rows : List VarRow) : List VarRow :=
  if (rows.length : Int) > count then
    match minSourceTs rows with
    | some m => rows.filter (fun r => !(r.sourcetimestamp == m))
    | none => rows
  else rows

/-- Effect on the table of the age-retention statement: delete rows whose
source timestamp is strictly older than the limit. -/
def ageDelete (limitTs : Time) (rows : List VarRow) : List VarRow :=
  rows.filter (fun r => !(decide (r.sourcetimestamp < limitTs)))

/-- Result of `save_node_value`: the calls issued, the final table contents,
and the exception propagated to the caller, if any. -/
structure SaveValueResult where
  calls : List DbCall
  rows : List VarRow
  err : Option PyErr
deriving DecidableEq

/-- `HistoryPgSQL.save_node_value`.  The first `try` block validates the name
and attempts the `INSERT`, logging and swallowing failures.  The retention
half then reads the policy from the shared dictionary — a `KeyError` escapes
for unregistered nodes, and unpacking an event-registration entry raises a
`TypeError`.  The `validate_table_name` calls guarding the two retention
deletes sit outside any `try`, so a `ValueError` there escapes; the deletes
themselves go through `execute_sql_delete`, which swallows its failures. -/
def save_node_value (dcp : List (NodeId × Entry)) (env : SaveEnv) (now : Time)
    (nextId : Nat) (rows : List VarRow) (node_id : NodeId) (dv : DataValue) :
    SaveValueResult :=
  let table := _get_table_name node_id "var"
  let (calls0, rows0) :=
    if validate_table_name table then
      if env.insertFails then ([DbCall.insertValue table (mkVarRow nextId dv)], rows)
      else ([DbCall.insertValue table (mkVarRow nextId dv)], rows ++ [mkVarRow nextId dv])
    else ([], rows)
  match lookupEntry dcp node_id with
  | none => ⟨calls0, rows0, some .keyError⟩
  | some (.evt _) => ⟨calls0, rows0, some .typeError⟩
  | some (.node period count) =>
    let step1 : List DbCall × List VarRow × Option PyErr :=
      match period with
      | some p =>
        if p ≠ 0 then
          if validate_table_name table then
            if env.deleteAgeFails then
              ([.deleteFrom table (.olderThan (now - p))], rows0, none)
            else
              ([.deleteFrom table (.olderThan (now - p))], ageDelete (now - p) rows0, none)
          else ([], rows0, some .valueError)
        else ([], rows0, none)
      | none => ([], rows0, none)
    match step1 with
    | (calls1, rows1, some e) => ⟨calls0 ++ calls1, rows1, some e⟩
    | (calls1, rows1, none) =>
      if count ≠ 0 then
        if validate_table_name table then
          if env.deleteCountFails then
            ⟨calls0 ++ calls1 ++ [.deleteFrom table (.countMin count)], rows1, none⟩
          else
            ⟨calls0 ++ calls1 ++ [.deleteFrom table (.countMin count)],
             countDelete count rows1, none⟩
        else ⟨calls0 ++ calls1, rows1, some .valueError⟩
      else ⟨calls0 ++ calls1, rows1, none⟩

/-- A sequence of `save_node_value` calls starting from the freshly created
(empty) table, threading the serial row id. -/
def save_sequence (dcp : List (NodeId × Entry)) (env : SaveEnv) (now : Time)
    (node_id : NodeId) (dvs : List DataValue) : Nat × List VarRow :=
  dvs.foldl
    (fun st dv =>
      let r := save_node_value dcp env now st.1 st.2 node_id dv
      (st.1 + 1, r.rows))
    (0, [])

/-! ### Read path: `read_node_history` -/

/-- Failure injection for the read path: whether the target table exists, and
which of the four round trips of the `try` block raises. -/
structure ReadEnv where
  table_present : Bool
  failExists : Bool
  failCountAll : Bool
  failCountRange : Bool
  failSelect : Bool
deriving DecidableEq

/-- Stable insertion into a sorted list: the sorting routine of the model
(used for SQL `ORDER BY` and Python `list.sort`). -/
def insertSorted {α : Type} (le : α → α → Bool) (a : α) : List α → List α
  | [] => [a]
  | b :: l => if le a b then a :: b :: l else b :: insertSorted le a l

/-- Stable insertion sort. -/
def sortBy {α : Type} (le : α → α → Bool) : List α → List α
  | [] => []
  | a :: l => insertSorted le a (sortBy le l)

/-- Comparison used by `ORDER BY _id ASC` / `DESC`. -/
def idLe (order : SqlOrder) (r1 r2 : Nat) : Bool :=
  match order with
  | .ASC => r1 ≤ r2
  | .DESC => r2 ≤ r1

/-- The scan of the value range query before the row limit: rows whose
source timestamp lies between the bounds (SQL `BETWEEN` is inclusive),
ordered by the serial id in the requested direction. -/
def varScan (rows : List VarRow) (b : Bounds) : List VarRow :=
  sortBy (fun r1 r2 => idLe b.order r1.id r2.id)
    (rows.filter
      (fun r => decide (b.start_time ≤ r.sourcetimestamp) &&
        decide (r.sourcetimestamp ≤ b.end_time)))

/-- Result set of the value range query.  PostgreSQL rejects a negative
`LIMIT`; that error path returns no rows, which `Int.toNat` reproduces. -/
def queryVarRows (rows : List VarRow) (b : Bounds) : List VarRow :=
  (varScan rows b).take b.limit.toNat

/-- The `ua.DataValue` reconstructed from a fetched row. -/
def rowToDataValue (r : VarRow) : DataValue :=
  ⟨variant_from_binary r.variantbinary, r.sourcetimestamp, r.servertimestamp, r.statuscode⟩

/-- The truncation epilogue shared by both readers: when more than
`max_history_data_response_size` results were built, the continuation is the
source timestamp of the first row beyond the cap and the results are cut to
the cap. -/
def truncateResults (cap : Nat) (results : List DataValue) :
    List DataValue × Option Time :=
  let cont := if results.length > cap then (results[cap]?).map (·.SourceTimestamp) else none
  (results.take cap, cont)

/-- `HistoryPgSQL.read_node_history`.  The whole body sits in one
`try`/`except`; any failure (invalid name, failing round trip) falls through
to the truncation epilogue with an empty result list, while a missing table
returns the empty page directly.  `cap` is the instance's
`max_history_data_response_size` (constructor default 10000). -/
def read_node_history (cap : Nat) (env : ReadEnv) (rows : List VarRow)
    (node_id : NodeId) (start end_ : Option Time) (nb_values : Option Int) (now : Time) :
    List DbCall × List DataValue × Option Time :=
  let table := _get_table_name node_id "var"
  let b := _get_bounds start end_ nb_values now
  if validate_table_name table then
    if env.failExists then
      ([.tableExistsCheck table], truncateResults cap [])
    else if !env.table_present then
      ([.tableExistsCheck table], ([], none))
    else if env.failCountAll then
      ([.tableExistsCheck table, .countAll table], truncateResults cap [])
    else if env.failCountRange then
      ([.tableExistsCheck table, .countAll table, .countRange table b.start_time b.end_time],
       truncateResults cap [])
    else if env.failSelect then
      ([.tableExistsCheck table, .countAll table, .countRange table b.start_time b.end_time,
        .selectValues table b.start_time b.end_time b.order b.limit],
       truncateResults cap [])
    else
      let results := (queryVarRows rows b).map rowToDataValue
      ([.tableExistsCheck table, .countAll table, .countRange table b.start_time b.end_time,
        .selectValues table b.start_time b.end_time b.order b.limit],
       truncateResults cap results)
  else ([], truncateResults cap [])

/-! ### Registration: `new_historized_node` / `new_historized_event` -/

/-- Failure injection for the DDL sequence of a registration call: the index
of the first round trip that raises, if any (everything is caught). -/
structure DdlEnv where
  failAt : Option Nat
deriving DecidableEq

/-- The DDL round trips of `new_historized_node`, in source order.  The
structure-repair helpers are recorded as grouped calls. -/
def varTableDdlCalls (table : String) : List DbCall :=
  [.createVarTable table, .ensureVarStructure table, .dropConflictingIdx table,
   .createHypertable table, .createIndexId table, .createIndexTs table]

/-- Result of a registration call: calls issued and the updated in-process
dictionaries (every failure is logged and swallowed). -/
structure RegisterResult where
  calls : List DbCall
  dcp : List (NodeId × Entry)
  event_fields : List (NodeId × List String)
deriving DecidableEq

/-- `HistoryPgSQL.new_historized_node`: the retention policy is stored before
the `try` block, so it is recorded even when validation or DDL fails. -/
def new_historized_node (dcp : List (NodeId × Entry)) (ef : List (NodeId × List String))
    (env : DdlEnv) (node_id : NodeId) (period : Option Int) (count : Int) :
    RegisterResult :=
  let table := _get_table_name node_id "var"
  let dcp1 := updateEntry dcp node_id (.node period count)
  if validate_table_name table then
    match env.failAt with
    | some k => ⟨(varTableDdlCalls table).take (k + 1), dcp1, ef⟩
    | none => ⟨varTableDdlCalls table, dcp1, ef⟩
  else ⟨[], dcp1, ef⟩

/-- `HistoryPgSQL._get_event_fields`: the union of the declared fields of the
given event types, deduplicated (a Python `set`; the model fixes the
first-occurrence order). -/
def _get_event_fields (evtypes : List (List String)) : List String :=
  (evtypes.foldr (· ++ ·) []).eraseDups

/-- The DDL round trips of `new_historized_event`, in source order. -/
def evtTableDdlCalls (table : String) : List DbCall :=
  [.createEvtTable table, .ensureEvtStructure table, .dropConflictingIdx table,
   .createHypertable table, .createIndexId table, .createIndexTs table]

/-- `HistoryPgSQL.new_historized_event`: stores the bare period (not the
pair) under the source id in the shared dictionary, records the field set,
then runs the DDL sequence with all failures swallowed. -/
def new_historized_event (dcp : List (NodeId × Entry)) (ef : List (NodeId × List String))
    (env : DdlEnv) (source_id : NodeId) (evtypes : List (List String))
    (period : Option Int) (count : Int) : RegisterResult :=
  let ev_fields := _get_event_fields evtypes
  let dcp1 := updateEntry dcp source_id (.evt period)
  let ef1 := updateFields ef source_id ev_fields
  let table := _get_table_name source_id "evt"
  if validate_table_name table then
    match env.failAt with
    | some k => ⟨(evtTableDdlCalls table).take (k + 1), dcp1, ef1⟩
    | none => ⟨evtTableDdlCalls table, dcp1, ef1⟩
  else ⟨[], dcp1, ef1⟩

/-! ### Event write path: `_format_event` / `save_event` -/

/-- An OPC UA event as the backend consumes it.  `SourceNode` and `EventType`
are optional because `save_event` guards against their absence; `Time` falls
back to the current time.  `fields` is `get_event_props_as_fields_dict()`,
an association list with distinct keys. -/
structure UaEvent where
  SourceNode : Option NodeId
  EventType : Option String
  Time : Option Time
  emitting_node : NodeId
  fields : List (String × Variant)
deriving DecidableEq

/-- Lookup in the event's field dictionary (total: the names looked up always
come from the dictionary's own keys). -/
def dictLookup (d : List (String × Variant)) (name : String) : Variant :=
  ((d.find? (fun p => p.1 == name)).map (·.2)).getD nullVariant

/-- `HistoryPgSQL._list_to_sql_str`: comma-join of the double-quoted items. -/
def _list_to_sql_str (ls : List String) : String :=
  String.intercalate (", ") (ls.map (fun item => "\"" ++ item ++ "\""))

/-- Lexicographic comparison of character lists by code point. -/
def charListLe : List Char → List Char → Bool
  | [], _ => true
  | _ :: _, [] => false
  | a :: as, b :: bs => if a < b then true else if b < a then false else charListLe as bs

/-- Python string ordering (`list.sort` on `str`) as a boolean relation:
lexicographic comparison by code point, which agrees with Lean's `≤` on
`String` (`strLe_iff` below). -/
def strLe (a b : String) : Bool :=
  charListLe a.data b.data

/-- `HistoryPgSQL._format_event`: sort the field names, then one loop builds
the positional placeholders starting at the third slot together with the
encoded values in the same (sorted) order. -/
def _format_event (ev_variant_dict : List (String × Variant)) :
    String × String × List EncodedVariant × List String :=
  let names := sortBy strLe (ev_variant_dict.map Prod.fst)
  if names.isEmpty then ("", "", [], [])
  else
    let (placeholders, ev_variant_binaries) :=
      names.enum.foldl
        (fun (acc : List String × List EncodedVariant) p =>
          (acc.1 ++ ["$" ++ toString (3 + p.1)],
           acc.2 ++ [variant_to_binary (dictLookup ev_variant_dict p.2)]))
        ([], [])
    (_list_to_sql_str names, String.intercalate (", ") placeholders,
     ev_variant_binaries, names)

/-- Failure injection for the event write path.  `missingCols` is the set of
dynamic columns `information_schema` reports absent (they get an
`ALTER TABLE ... ADD COLUMN`); `timestampColPresent` is the result of the
`_timestamp` column check. -/
structure SaveEventEnv where
  insertFails : Bool
  deleteFails : Bool
  timestampColPresent : Bool
  missingCols : List String
deriving DecidableEq

/-- The round trips of `_ensure_event_dynamic_columns`: one existence check
per field, plus an `ALTER` for each missing column. -/
def ensureColumnsCalls (table : String) (fields : List String) (missing : List String) :
    List DbCall :=
  (fields.map
      (fun f =>
        DbCall.checkColumn table f ::
          (if f ∈ missing then [DbCall.addColumn table f] else []))).foldr
    (· ++ ·) []

/-- Result of `save_event`. -/
structure SaveEventResult where
  calls : List DbCall
  rows : List EvtRow
  err : Option PyErr
deriving DecidableEq

/-- `HistoryPgSQL.save_event`.  Guards return early for a missing event,
source node or event type.  The `try` block validates the name, ensures the
dynamic columns, checks the `_timestamp` column (returning — and skipping
retention — when absent) and inserts; every exception inside is caught.  The
retention epilogue reads the shared dictionary at `event.emitting_node`: a
bare truthy period triggers an age delete on the table derived from
`event.SourceNode` (failures caught), while a value-registration pair is
truthy but raises a `TypeError` (computed outside the inner `try`) before any
delete. -/
def save_event (dcp : List (NodeId × Entry)) (env : SaveEventEnv) (now : Time)
    (nextId : Nat) (rows : List EvtRow) (event : Option UaEvent) : SaveEventResult :=
  match event with
  | none => ⟨[], rows, none⟩
  | some ev =>
    match ev.SourceNode with
    | none => ⟨[], rows, none⟩
    | some src =>
      let table := _get_table_name src "evt"
      let fmt := _format_event ev.fields
      let evtup := fmt.2.2.1
      let field_names := fmt.2.2.2
      match ev.EventType with
      | none => ⟨[], rows, none⟩
      | some etype =>
        let insert_time := ev.Time.getD now
        let (calls1, rows1, earlyRet) :=
          if validate_table_name table then
            let ensCalls :=
              if field_names.isEmpty then []
              else ensureColumnsCalls table field_names env.missingCols
            let calls := ensCalls ++ [DbCall.checkTimestampColumn table]
            if !env.timestampColPresent then (calls, rows, true)
            else if env.insertFails then
              (calls ++ [.insertEvent table insert_time etype evtup], rows, false)
            else
              (calls ++ [.insertEvent table insert_time etype evtup],
               rows ++ [⟨nextId, insert_time, etype, field_names.zip evtup⟩], false)
          else ([], rows, false)
        if earlyRet then ⟨calls1, rows1, none⟩
        else
          match lookupEntry dcp ev.emitting_node with
          | none => ⟨calls1, rows1, none⟩
          | some (.node _ _) => ⟨calls1, rows1, some .typeError⟩
          | some (.evt none) => ⟨calls1, rows1, none⟩
          | some (.evt (some d)) =>
            if d ≠ 0 then
              if validate_table_name table then
                if env.deleteFails then
                  ⟨calls1 ++ [.deleteFrom table (.evtOlderThan (now - d))], rows1, none⟩
                else
                  ⟨calls1 ++ [.deleteFrom table (.evtOlderThan (now - d))],
                   rows1.filter (fun r => !(decide (r.timestamp < now - d))), none⟩
              else ⟨calls1, rows1, none⟩
            else ⟨calls1, rows1, none⟩

/-! ### Event read path: `_get_select_clauses` / `read_event_history` -/

/-- One element of `evfilter.SelectClauses`: a browse path (whose first name
is used when present) or a bare attribute name. -/
structure SelectClause where
  BrowsePath : List String
  AttributeName : String
deriving DecidableEq

/-- The event filter supplied by the protocol layer. -/
structure EventFilter where
  SelectClauses : List SelectClause
deriving DecidableEq

/-- The fixed fallback field set used for unregistered or field-less
sources. -/
def basic_event_fields : List String :=
  ["EventId", "EventType", "SourceName", "Time", "Message",
   "Severity", "ConditionName", "BranchId", "Retain"]

/-- `HistoryPgSQL._get_select_clauses`: project the filter to requested
names, lazily auto-register unknown sources with the fallback field set (also
substituted when the registered set is empty), and keep the requested names
that are available.  Returns the clause list and the updated registry. -/
def _get_select_clauses (ef : List (NodeId × List String)) (source_id : NodeId)
    (evfilter : EventFilter) : List String × List (NodeId × List String) :=
  let s_clauses := evfilter.SelectClauses.map
    (fun sc => if sc.BrowsePath.isEmpty then sc.AttributeName else sc.BrowsePath.headD (""))
  let ef1 :=
    match lookupFields ef source_id with
    | none => updateFields ef source_id basic_event_fields
    | some _ => ef
  let available := (lookupFields ef1 source_id).getD []
  let (available, ef2) :=
    if available.isEmpty then (basic_event_fields, updateFields ef1 source_id basic_event_fields)
    else (available, ef1)
  let clauses := s_clauses.filter (fun x => decide (x ∈ available))
  (clauses, ef2)

/-- Column access `row[field.lower()]` on a fetched event row: `none` for an
SQL NULL (the schema layer keeps column names case-normalized, so the lookup
compares names case-insensitively). -/
def rowField (r : EvtRow) (field : String) : Option EncodedVariant :=
  ((r.fields.find? (fun p => p.1.toLower == field.toLower)).map (·.2))

/-- The field dictionary of the `Event` rebuilt from a fetched row: NULL
columns decode to `ua.Variant(None)`. -/
def rowToEventDict (clauses : List String) (r : EvtRow) : List (String × Variant) :=
  clauses.map
    (fun field =>
      (field,
       match rowField r field with
       | some bin => variant_from_binary bin
       | none => nullVariant))

/-- The scan of the event range query before the row limit. -/
def evtScan (rows : List EvtRow) (b : Bounds) : List EvtRow :=
  sortBy (fun r1 r2 => idLe b.order r1.id r2.id)
    (rows.filter
      (fun r => decide (b.start_time ≤ r.timestamp) &&
        decide (r.timestamp ≤ b.end_time)))

/-- Result set of the event range query. -/
def queryEvtRows (rows : List EvtRow) (b : Bounds) : List EvtRow :=
  (evtScan rows b).take b.limit.toNat

/-- The truncation epilogue of `read_event_history`: the continuation comes
from the separately collected timestamp list. -/
def truncateEventResults (cap : Nat) (results : List (List (String × Variant)))
    (cont_timestamps : List Time) : List (List (String × Variant)) × Option Time :=
  let cont := if results.length > cap then cont_timestamps[cap]? else none
  (results.take cap, cont)

/-- `HistoryPgSQL.read_event_history`: same shape as the value reader, with
the select clauses computed up front (registry side effects ignored here) and
each fetched row turned into an event field dictionary. -/
def read_event_history (cap : Nat) (env : ReadEnv) (ef : List (NodeId × List String))
    (rows : List EvtRow) (source_id : NodeId) (start end_ : Option Time)
    (nb_values : Option Int) (evfilter : EventFilter) (now : Time) :
    List DbCall × List (List (String × Variant)) × Option Time :=
  let table := _get_table_name source_id "evt"
  let b := _get_bounds start end_ nb_values now
  let clauses := (_get_select_clauses ef source_id evfilter).1
  if validate_table_name table then
    if env.failExists then
      ([.tableExistsCheck table], truncateEventResults cap [] [])
    else if !env.table_present then
      ([.tableExistsCheck table], ([], none))
    else if env.failCountAll then
      ([.tableExistsCheck table, .countAll table], truncateEventResults cap [] [])
    else if env.failCountRange then
      ([.tableExistsCheck table, .countAll table, .countRange table b.start_time b.end_time],
       truncateEventResults cap [] [])
    else if env.failSelect then
      ([.tableExistsCheck table, .countAll table, .countRange table b.start_time b.end_time,
        .selectEvents table b.start_time b.end_time b.order b.limit],
       truncateEventResults cap [] [])
    else
      let fetched := queryEvtRows rows b
      let cont_timestamps := fetched.map (·.timestamp)
      let results := fetched.map (rowToEventDict clauses)
      ([.tableExistsCheck table, .countAll table, .countRange table b.start_time b.end_time,
        .selectEvents table b.start_time b.end_time b.order b.limit],
       truncateEventResults cap results cont_timestamps)
  else ([], truncateEventResults cap [] [])

/-! ## Claim C2: bounds computation -/

/-- C2: for every input to the bounds computation, an unset or sentinel start
pins the start to the sentinel epoch and forces a DESCENDING scan (the bounds
being the pinned start and the effective end, smaller first); an unset or
sentinel end becomes now plus one day; and for an explicitly given start, the
scan is ASCENDING with the bounds as given when the start precedes the
effective end, otherwise DESCENDING with the bounds swapped so the smaller
timestamp comes first. -/
theorem c2_get_bounds_spec (start end_ : Option Time) (nb : Option Int) (now : Time) :
    let e := if end_ = none ∨ end_ = some win_epoch then now + oneDay else end_.getD 0
    let r := _get_bounds start end_ nb now
    ((start = none ∨ start = some win_epoch) →
      r.order = SqlOrder.DESC ∧ r.start_time = min win_epoch e ∧ r.end_time = max win_epoch e) ∧
    (∀ s, start = some s → s ≠ win_epoch →
      ((s < e → r.order = SqlOrder.ASC ∧ r.start_time = s ∧ r.end_time = e) ∧
       (e ≤ s → r.order = SqlOrder.DESC ∧ r.start_time = e ∧ r.end_time = s))) := by
  intro e r
  have hee : (if end_ = none ∨ end_ = some win_epoch then now + oneDay else end_.getD 0) = e :=
    rfl
  constructor
  · intro h
    refine ⟨?_, ?_, ?_⟩
    · show (_get_bounds start end_ nb now).order = SqlOrder.DESC
      simp only [_get_bounds, if_pos h, hee]
      split <;> rfl
    · show (_get_bounds start end_ nb now).start_time = min win_epoch e
      simp only [_get_bounds, if_pos h, hee]
      rcases lt_or_le win_epoch e with h1 | h1
      · rw [if_pos h1, min_eq_left h1.le]
      · rw [if_neg (not_lt.mpr h1), min_eq_right h1]
    · show (_get_bounds start end_ nb now).end_time = max win_epoch e
      simp only [_get_bounds, if_pos h, hee]
      rcases lt_or_le win_epoch e with h1 | h1
      · rw [if_pos h1, max_eq_right h1.le]
      · rw [if_neg (not_lt.mpr h1), max_eq_left h1]
  · intro s hs hne
    subst hs
    have hp : ¬ (some s = none ∨ some s = some win_epoch) := by simp [hne]
    constructor
    · intro hlt
      refine ⟨?_, ?_, ?_⟩
      · show (_get_bounds (some s) end_ nb now).order = SqlOrder.ASC
        simp only [_get_bounds, if_neg hp, Option.getD_some, hee]
        rw [if_pos hlt]
      · show (_get_bounds (some s) end_ nb now).start_time = s
        simp only [_get_bounds, if_neg hp, Option.getD_some, hee]
        rw [if_pos hlt]
      · show (_get_bounds (some s) end_ nb now).end_time = e
        simp only [_get_bounds, if_neg hp, Option.getD_some, hee]
        rw [if_pos hlt]
    · intro hle
      refine ⟨?_, ?_, ?_⟩
      · show (_get_bounds (some s) end_ nb now).order = SqlOrder.DESC
        simp only [_get_bounds, if_neg hp, Option.getD_some, hee]
        rw [if_neg (not_lt.mpr hle)]
      · show (_get_bounds (some s) end_ nb now).start_time = e
        simp only [_get_bounds, if_neg hp, Option.getD_some, hee]
        rw [if_neg (not_lt.mpr hle)]
      · show (_get_bounds (some s) end_ nb now).end_time = s
        simp only [_get_bounds, if_neg hp, Option.getD_some, hee]
        rw [if_neg (not_lt.mpr hle)]

/-- Witness for C2 at a concrete input: an unset start with end 100 at
now 0. -/
theorem c2_get_bounds_spec_witness :
    (_get_bounds none (some 100) none 0).order = SqlOrder.DESC ∧
    (_get_bounds none (some 100) none 0).start_time = win_epoch ∧
    (_get_bounds none (some 100) none 0).end_time = 100 := by
  have h := (c2_get_bounds_spec none (some 100) none 0).1 (Or.inl rfl)
  have he : (if (some 100 : Option Time) = none ∨ (some 100 : Option Time) = some win_epoch
      then (0 : Int) + oneDay else (some (100 : Int)).getD 0) = 100 := by decide
  rw [he] at h
  refine ⟨h.1, ?_, ?_⟩
  · rw [h.2.1]; decide
  · rw [h.2.2]; decide

/-! ## Claim C8: the row limit -/

/-- C8 counterexample: a negative supplied maxCount is truthy in Python, so
the limit becomes the negative value itself instead of the claimed default
10000. -/
theorem c8_counterexample :
    (_get_bounds none none (some (-1)) 0).limit = -1 ∧
    ¬ (0 : Int) < -1 ∧
    (_get_bounds none none (some (-1)) 0).limit ≠ 10000 := by decide

/-- C8 amended: the row limit equals the caller-supplied maxCount whenever it
is set and nonzero (negative values included), and equals the fixed default
10000 when it is unset or zero. -/
theorem c8_limit_amended (start end_ : Option Time) (now : Time) (nb : Option Int) :
    ((nb = none ∨ nb = some 0) → (_get_bounds start end_ nb now).limit = 10000) ∧
    (∀ v, nb = some v → v ≠ 0 → (_get_bounds start end_ nb now).limit = v) := by
  constructor
  · rintro (h | h) <;> subst h <;> simp [_get_bounds]
  · intro v hv hne
    subst hv
    simp [_get_bounds, hne]

/-- Witness for C8 amended: maxCount 7 yields limit 7, unset yields 10000. -/
theorem c8_limit_amended_witness :
    (_get_bounds none none (some 7) 0).limit = 7 ∧
    (_get_bounds none none none 0).limit = 10000 := by
  refine ⟨(c8_limit_amended none none 0 (some 7)).2 7 rfl (by decide), ?_⟩
  exact (c8_limit_amended none none 0 none).1 (Or.inl rfl)

/-! ## Claim C7: table naming

Auxiliary facts about the decimal rendering used by the f-string: the digits
of a natural number contain no underscore, and the rendering is injective. -/

/-- Reference form of the decimal rendering, most significant digit first. -/
def natToDigits10 (n : Nat) : List Char :=
  if h : n < 10 then [Nat.digitChar n]
  else natToDigits10 (n / 10) ++ [Nat.digitChar (n % 10)]
termination_by n
decreasing_by exact Nat.div_lt_self (by omega) (by omega)

theorem toDigitsCore_acc (b : Nat) :
    ∀ (fuel n : Nat) (ds : List Char),
      Nat.toDigitsCore b fuel n ds = Nat.toDigitsCore b fuel n [] ++ ds := by
  intro fuel
  induction fuel with
  | zero => intro n ds; simp [Nat.toDigitsCore]
  | succ f ih =>
    intro n ds
    simp only [Nat.toDigitsCore]
    by_cases h : n / b = 0
    · simp [h]
    · rw [if_neg h, if_neg h, ih (n / b) (Nat.digitChar (n % b) :: ds),
        ih (n / b) [Nat.digitChar (n % b)], List.append_assoc, List.singleton_append]

theorem toDigitsCore_fuel (b : Nat) (hb : 2 ≤ b) :
    ∀ (fuel fuel2 n : Nat), n < fuel → n < fuel2 →
      Nat.toDigitsCore b fuel n [] = Nat.toDigitsCore b fuel2 n [] := by
  intro fuel
  induction fuel with
  | zero => intro fuel2 n h1 h2; omega
  | succ f ih =>
    intro fuel2 n h1 h2
    match fuel2, h2 with
    | f2 + 1, h2 =>
      simp only [Nat.toDigitsCore]
      by_cases h : n / b = 0
      · simp [h]
      · have hbn : b ≤ n := by
          by_contra hc
          exact h (Nat.div_eq_of_lt (by omega))
        have hd : n / b < n := Nat.div_lt_self (by omega) (by omega)
        rw [if_neg h, if_neg h, toDigitsCore_acc, toDigitsCore_acc b f2,
          ih f2 (n / b) (by omega) (by omega)]

theorem natToDigits10_lt (k : Nat) (hk : k < 10) : natToDigits10 k = [Nat.digitChar k] := by
  rw [natToDigits10]
  rw [dif_pos hk]

theorem natToDigits10_ge (k : Nat) (hk : ¬ k < 10) :
    natToDigits10 k = natToDigits10 (k / 10) ++ [Nat.digitChar (k % 10)] := by
  rw [natToDigits10]
  rw [dif_neg hk]

theorem toDigits10_eq (n : Nat) : Nat.toDigits 10 n = natToDigits10 n := by
  induction n using Nat.strong_induction_on with
  | _ n ih =>
    by_cases h : n < 10
    · rw [natToDigits10_lt n h]
      have h0 : n / 10 = 0 := Nat.div_eq_of_lt h
      have h1 : n % 10 = n := Nat.mod_eq_of_lt h
      show Nat.toDigitsCore 10 (n + 1) n [] = _
      simp [Nat.toDigitsCore, h0, h1]
    · rw [natToDigits10_ge n h]
      have hne : n / 10 ≠ 0 := by omega
      show Nat.toDigitsCore 10 (n + 1) n [] = _
      simp only [Nat.toDigitsCore, if_neg hne]
      rw [toDigitsCore_acc]
      have hd : n / 10 < n := Nat.div_lt_self (by omega) (by omega)
      rw [toDigitsCore_fuel 10 (by omega) n (n / 10 + 1) (n / 10) (by omega) (by omega)]
      rw [show Nat.toDigitsCore 10 (n / 10 + 1) (n / 10) [] = Nat.toDigits 10 (n / 10) from rfl]
      rw [ih (n / 10) hd]

theorem digitChar_isDigit : ∀ d : Nat, d < 10 → (Nat.digitChar d).isDigit = true := by decide

theorem digitChar_injOn :
    ∀ a : Nat, a < 10 → ∀ b : Nat, b < 10 → Nat.digitChar a = Nat.digitChar b → a = b := by
  decide

theorem natToDigits10_ne_nil (n : Nat) : natToDigits10 n ≠ [] := by
  rw [natToDigits10]
  split
  · simp
  · simp

theorem natToDigits10_isDigit (n : Nat) : ∀ c ∈ natToDigits10 n, c.isDigit = true := by
  induction n using Nat.strong_induction_on with
  | _ n ih =>
    rw [natToDigits10]
    split
    next h =>
      intro c hc
      rw [List.mem_singleton] at hc
      subst hc
      exact digitChar_isDigit n h
    next h =>
      intro c hc
      rw [List.mem_append, List.mem_singleton] at hc
      rcases hc with hc | hc
      · exact ih (n / 10) (Nat.div_lt_self (by omega) (by omega)) c hc
      · subst hc
        exact digitChar_isDigit (n % 10) (Nat.mod_lt n (by omega))

theorem natToDigits10_inj : ∀ m : Nat, ∀ n : Nat, natToDigits10 m = natToDigits10 n → m = n := by
  intro m
  induction m using Nat.strong_induction_on with
  | _ m ih =>
    intro n h
    by_cases hm : m < 10 <;> by_cases hn : n < 10
    · rw [natToDigits10_lt m hm, natToDigits10_lt n hn] at h
      rw [List.singleton_inj] at h
      exact digitChar_injOn m hm n hn h
    · rw [natToDigits10_lt m hm, natToDigits10_ge n hn] at h
      have hl := congrArg List.length h
      simp only [List.length_singleton, List.length_append] at hl
      have := natToDigits10_ne_nil (n / 10)
      have h0 : (natToDigits10 (n / 10)).length = 0 := by omega
      exact absurd (List.length_eq_zero.mp h0) this
    · rw [natToDigits10_ge m hm, natToDigits10_lt n hn] at h
      have hl := congrArg List.length h
      simp only [List.length_singleton, List.length_append] at hl
      have := natToDigits10_ne_nil (m / 10)
      have h0 : (natToDigits10 (m / 10)).length = 0 := by omega
      exact absurd (List.length_eq_zero.mp h0) this
    · rw [natToDigits10_ge m hm, natToDigits10_ge n hn] at h
      have h2 := List.append_inj' h (by simp)
      have hq := ih (m / 10) (Nat.div_lt_self (by omega) (by omega)) (n / 10) h2.1
      have hr : m % 10 = n % 10 := by
        have := h2.2
        rw [List.singleton_inj] at this
        exact digitChar_injOn (m % 10) (Nat.mod_lt m (by omega)) (n % 10)
          (Nat.mod_lt n (by omega)) this
      omega

theorem natRepr_data (n : Nat) : (Nat.repr n).data = natToDigits10 n := by
  show (List.asString (Nat.toDigits 10 n)).data = _
  rw [toDigits10_eq]
  rfl

theorem natRepr_inj (m n : Nat) (h : Nat.repr m = Nat.repr n) : m = n := by
  apply natToDigits10_inj
  rw [← natRepr_data, ← natRepr_data, h]

theorem natRepr_no_underscore (n : Nat) : '_' ∉ (Nat.repr n).data := by
  rw [natRepr_data]
  intro hm
  have := natToDigits10_isDigit n _ hm
  simp [Char.isDigit] at this

/-- Splitting a character list at an underscore is unambiguous when neither
prefix contains an underscore. -/
theorem underscore_split_inj :
    ∀ (s1 s2 t1 t2 : List Char), '_' ∉ s1 → '_' ∉ s2 →
      s1 ++ '_' :: t1 = s2 ++ '_' :: t2 → s1 = s2 ∧ t1 = t2 := by
  intro s1
  induction s1 with
  | nil =>
    intro s2 t1 t2 h1 h2 h
    cases s2 with
    | nil =>
      rw [List.nil_append, List.nil_append, List.cons.injEq] at h
      exact ⟨rfl, h.2⟩
    | cons c cs =>
      rw [List.nil_append, List.cons_append, List.cons.injEq] at h
      rw [← h.1] at h2
      exact absurd (List.mem_cons_self '_' cs) h2
  | cons c cs ih =>
    intro s2 t1 t2 h1 h2 h
    cases s2 with
    | nil =>
      rw [List.cons_append, List.nil_append, List.cons.injEq] at h
      rw [h.1] at h1
      exact absurd (List.mem_cons_self '_' cs) h1
    | cons d ds =>
      rw [List.cons_append, List.cons_append, List.cons.injEq] at h
      obtain ⟨rfl, h⟩ := h
      have hr := ih ds t1 t2 (fun hm => h1 (List.mem_cons_of_mem _ hm))
        (fun hm => h2 (List.mem_cons_of_mem _ hm)) h
      exact ⟨by rw [hr.1], hr.2⟩

theorem string_data_inj {a b : String} (h : a.data = b.data) : a = b := by
  cases a
  cases b
  exact congrArg String.mk h

/-- The character list of a derived table name, split at the two separator
underscores. -/
theorem tableName_data (node : NodeId) (cls : String) :
    (_get_table_name node cls).data =
      cls.data ++ '_' ::
        ((toString node.NamespaceIndex).data ++ '_' :: node.Identifier.render.data) := by
  simp [_get_table_name, String.data_append]

/-- C7 counterexample: the numeric identifier 5 and the string identifier
"5" are distinct identifiers, yet their derived value-table names coincide,
so the table-name function is not injective on distinct
(namespaceIndex, identifier, class) triples. -/
theorem c7_counterexample :
    (⟨1, UaIdentifier.num 5⟩ : NodeId) ≠ (⟨1, UaIdentifier.str ("5")⟩ : NodeId) ∧
    _get_table_name ⟨1, UaIdentifier.num 5⟩ "var" =
      _get_table_name ⟨1, UaIdentifier.str ("5")⟩ "var" := by
  constructor
  · decide
  · rfl

/-- C7 amended: the table-name function is deterministic (it is a pure
function of the class, namespace index and identifier rendering), and for
the two classes in use the derived names coincide exactly when the classes,
namespace indices and the textual renderings of the identifiers all
coincide.  In particular it is injective across distinct triples whose
identifiers have distinct renderings; a numeric identifier and the string
identifier spelling the same digits are the only collisions. -/
theorem c7_tableName_inj_amended (n1 n2 : NodeId) (c1 c2 : String)
    (h1 : c1 = "var" ∨ c1 = "evt") (h2 : c2 = "var" ∨ c2 = "evt") :
    _get_table_name n1 c1 = _get_table_name n2 c2 ↔
      (c1 = c2 ∧ n1.NamespaceIndex = n2.NamespaceIndex ∧
        n1.Identifier.render = n2.Identifier.render) := by
  constructor
  · intro h
    have hd := congrArg String.data h
    rw [tableName_data, tableName_data] at hd
    have hu1 : '_' ∉ c1.data := by rcases h1 with h1 | h1 <;> subst h1 <;> decide
    have hu2 : '_' ∉ c2.data := by rcases h2 with h2 | h2 <;> subst h2 <;> decide
    obtain ⟨hc, hrest⟩ := underscore_split_inj _ _ _ _ hu1 hu2 hd
    obtain ⟨hns, hid⟩ := underscore_split_inj _ _ _ _
      (natRepr_no_underscore n1.NamespaceIndex) (natRepr_no_underscore n2.NamespaceIndex) hrest
    exact ⟨string_data_inj hc, natRepr_inj _ _ (string_data_inj hns), string_data_inj hid⟩
  · rintro ⟨rfl, hns, hid⟩
    simp [_get_table_name, hns, hid]

/-- Witness for C7 amended: distinct namespace indices give distinct table
names. -/
theorem c7_tableName_inj_amended_witness :
    _get_table_name ⟨2, UaIdentifier.str ("Temp1")⟩ "var" ≠
      _get_table_name ⟨3, UaIdentifier.str ("Temp1")⟩ "var" := by
  intro h
  have hq := ((c7_tableName_inj_amended ⟨2, UaIdentifier.str ("Temp1")⟩
    ⟨3, UaIdentifier.str ("Temp1")⟩ "var" "var" (Or.inl rfl) (Or.inl rfl)).mp h).2.1
  simp at hq

/-! ## Claim C4: count-based retention -/

theorem filter_length_lt {α : Type} (p : α → Bool) :
    ∀ (l : List α) (a : α), a ∈ l → p a = false → (l.filter p).length < l.length := by
  intro l
  induction l with
  | nil => intro a ha; cases ha
  | cons x xs ih =>
    intro a ha hpa
    rw [List.filter_cons]
    rcases List.mem_cons.mp ha with rfl | ha2
    · rw [if_neg (by simp [hpa])]
      have := List.length_filter_le p xs
      simp only [List.length_cons]
      omega
    · by_cases hx : p x = true
      · rw [if_pos hx]
        simp only [List.length_cons]
        exact Nat.succ_lt_succ (ih a ha2 hpa)
      · rw [if_neg hx]
        have := List.length_filter_le p xs
        simp only [List.length_cons]
        omega

theorem minSourceTs_mem (rows : List VarRow) (h : rows ≠ []) :
    ∃ r ∈ rows, minSourceTs rows = some r.sourcetimestamp := by
  unfold minSourceTs
  cases hm : (rows.map (·.sourcetimestamp)).min? with
  | none =>
    rw [List.min?_eq_none_iff, List.map_eq_nil_iff] at hm
    exact absurd hm h
  | some m =>
    have hmem := List.min?_mem (fun a b => min_choice a b) hm
    obtain ⟨r, hr, hrm⟩ := List.mem_map.mp hmem
    exact ⟨r, hr, by rw [hrm]⟩

theorem minSourceTs_le (rows : List VarRow) (m : Time) (hm : minSourceTs rows = some m) :
    ∀ r ∈ rows, m ≤ r.sourcetimestamp := by
  intro r hr
  unfold minSourceTs at hm
  have h2 := (List.le_min?_iff (fun a b c => le_min_iff) hm).mp (le_refl m)
  exact h2 _ (List.mem_map_of_mem _ hr)

theorem countDelete_length_le (K : Int) (hK : 0 < K) (rows : List VarRow)
    (h : (rows.length : Int) ≤ K + 1) : ((countDelete K rows).length : Int) ≤ K := by
  unfold countDelete
  split
  · next hgt =>
    have hne : rows ≠ [] := by
      intro he
      subst he
      simp at hgt
      omega
    obtain ⟨r, hr, hm⟩ := minSourceTs_mem rows hne
    rw [hm]
    have hlt := filter_length_lt (fun r2 => !(r2.sourcetimestamp == r.sourcetimestamp))
      rows r hr (by simp)
    simp only []
    omega
  · next hgt => omega

/-- Rows left by a no-failure `save_node_value` on a node registered with no
age limit and count K: the inserted row is appended, then the conditional
count delete runs (nothing at all happens to the table when the name fails
validation, because the `ValueError` escapes before the delete). -/
theorem save_node_value_rows_eq (node_id : NodeId) (K : Int) (hK : K ≠ 0) (now : Time)
    (nextId : Nat) (rows : List VarRow) (dv : DataValue) :
    (save_node_value [(node_id, Entry.node none K)] ⟨false, false, false⟩ now
        nextId rows node_id dv).rows =
      if validate_table_name (_get_table_name node_id "var") then
        countDelete K (rows ++ [mkVarRow nextId dv])
      else rows := by
  have hl : lookupEntry [(node_id, Entry.node none K)] node_id = some (.node none K) := by
    simp [lookupEntry]
  by_cases hv : validate_table_name (_get_table_name node_id "var")
  · simp [save_node_value, hl, hv, hK]
  · simp [save_node_value, hl, hv, hK]

/-- C4: for a node registered with maxCount K greater than zero and no age
limit, after any sequence of successful writes starting from the freshly
created table the table holds at most K rows; and any row removed by the
count-based delete of a single write has the minimal (oldest) source
timestamp among the rows present at that point. -/
theorem c4_count_retention (node_id : NodeId) (K : Int) (hK : 0 < K) (now : Time) :
    (∀ dvs : List DataValue,
      (((save_sequence [(node_id, Entry.node none K)] ⟨false, false, false⟩ now
          node_id dvs).2).length : Int) ≤ K) ∧
    (∀ (nextId : Nat) (rows : List VarRow) (dv : DataValue) (r : VarRow),
      validate_table_name (_get_table_name node_id "var") = true →
      r ∈ rows ++ [mkVarRow nextId dv] →
      r ∉ (save_node_value [(node_id, Entry.node none K)] ⟨false, false, false⟩ now
          nextId rows node_id dv).rows →
      ∀ s ∈ rows ++ [mkVarRow nextId dv], r.sourcetimestamp ≤ s.sourcetimestamp) := by
  have hK0 : K ≠ 0 := by omega
  constructor
  · intro dvs
    unfold save_sequence
    have main : ∀ (ds : List DataValue) (st : Nat × List VarRow),
        ((st.2.length : Int) ≤ K) →
        (((ds.foldl
            (fun st dv =>
              let r := save_node_value [(node_id, Entry.node none K)] ⟨false, false, false⟩
                now st.1 st.2 node_id dv
              (st.1 + 1, r.rows))
            st).2.length : Int) ≤ K) := by
      intro ds
      induction ds with
      | nil => intro st h; simpa using h
      | cons dv rest ih =>
        intro st h
        rw [List.foldl_cons]
        apply ih
        simp only [save_node_value_rows_eq node_id K hK0 now st.1 st.2 dv]
        split
        · apply countDelete_length_le K hK
          simp only [List.length_append, List.length_singleton]
          push_cast
          omega
        · exact h
    exact main dvs (0, []) (by simp; omega)
  · intro nextId rows dv r hv hr hnot s hs
    rw [save_node_value_rows_eq node_id K hK0 now nextId rows dv] at hnot
    rw [if_pos hv] at hnot
    unfold countDelete at hnot
    by_cases hgt : ((rows ++ [mkVarRow nextId dv]).length : Int) > K
    · rw [if_pos hgt] at hnot
      cases hm : minSourceTs (rows ++ [mkVarRow nextId dv]) with
      | none => rw [hm] at hnot; exact absurd hr hnot
      | some m =>
        rw [hm] at hnot
        have hrm : r.sourcetimestamp = m := by
          by_contra hne
          exact hnot (List.mem_filter.mpr ⟨hr, by simp [hne]⟩)
        rw [hrm]
        exact minSourceTs_le _ m hm s hs
    · rw [if_neg hgt] at hnot
      exact absurd hr hnot

/-- Witness for C4 at a concrete run: K = 2, three writes with increasing
timestamps leave exactly two rows. -/
theorem c4_count_retention_witness :
    (0 : Int) < 2 ∧
    (((save_sequence [(⟨1, UaIdentifier.str ("n")⟩, Entry.node none 2)] ⟨false, false, false⟩ 100
        ⟨1, UaIdentifier.str ("n")⟩
        [⟨⟨.int 1, "Int64"⟩, 1, 1, 0⟩, ⟨⟨.int 2, "Int64"⟩, 2, 2, 0⟩,
         ⟨⟨.int 3, "Int64"⟩, 3, 3, 0⟩]).2).length : Int) ≤ 2 := by
  exact ⟨by omega,
    (c4_count_retention ⟨1, UaIdentifier.str ("n")⟩ 2 (by omega) 100).1
      [⟨⟨.int 1, "Int64"⟩, 1, 1, 0⟩, ⟨⟨.int 2, "Int64"⟩, 2, 2, 0⟩,
       ⟨⟨.int 3, "Int64"⟩, 3, 3, 0⟩]⟩

/-! ## Claim C3: pagination -/

theorem _get_bounds_limit_pos (start end_ : Option Time) (now : Time) (C : Int)
    (hC : C ≠ 0) : (_get_bounds start end_ (some C) now).limit = C := by
  simp [_get_bounds, hC]

/-- Pagination arithmetic of the value reader on the success path, phrased
over the scan (the sorted filtered row list): the reader takes the first
`limit` scan rows; the cursor appears exactly when more than `cap` rows were
retrieved, and then carries the source timestamp of scan row `cap` (the first
row beyond the returned page). -/
theorem truncate_take_spec (cap limit : Nat) (scan : List VarRow) :
    ((truncateResults cap ((scan.take limit).map rowToDataValue)).1.length =
        min cap (min limit scan.length)) ∧
    (cap < min limit scan.length →
      (truncateResults cap ((scan.take limit).map rowToDataValue)).2 =
        (scan[cap]?).map (·.sourcetimestamp)) ∧
    (min limit scan.length ≤ cap →
      (truncateResults cap ((scan.take limit).map rowToDataValue)).2 = none) := by
  have hlen : ((scan.take limit).map rowToDataValue).length = min limit scan.length := by
    simp [List.length_take]
  refine ⟨?_, ?_, ?_⟩
  · simp only [truncateResults]
    simp [List.length_take, hlen]
  · intro h
    simp only [truncateResults]
    rw [if_pos (by omega)]
    rw [List.getElem?_map]
    rw [List.getElem?_take_of_lt (by omega)]
    cases scan[cap]? <;> simp [rowToDataValue]
  · intro h
    simp only [truncateResults]
    rw [if_neg (by omega)]

/-- Pagination arithmetic of the event reader on the success path. -/
theorem truncate_evt_take_spec (cap limit : Nat) (scan : List EvtRow) (clauses : List String) :
    ((truncateEventResults cap ((scan.take limit).map (rowToEventDict clauses))
        ((scan.take limit).map (·.timestamp))).1.length =
        min cap (min limit scan.length)) ∧
    (cap < min limit scan.length →
      (truncateEventResults cap ((scan.take limit).map (rowToEventDict clauses))
        ((scan.take limit).map (·.timestamp))).2 = (scan[cap]?).map (·.timestamp)) ∧
    (min limit scan.length ≤ cap →
      (truncateEventResults cap ((scan.take limit).map (rowToEventDict clauses))
        ((scan.take limit).map (·.timestamp))).2 = none) := by
  have hlen : ((scan.take limit).map (rowToEventDict clauses)).length = min limit scan.length := by
    simp [List.length_take]
  refine ⟨?_, ?_, ?_⟩
  · simp only [truncateEventResults]
    simp [List.length_take, hlen]
  · intro h
    simp only [truncateEventResults]
    rw [if_pos (by omega)]
    rw [List.getElem?_map]
    rw [List.getElem?_take_of_lt (by omega)]
  · intro h
    simp only [truncateEventResults]
    rw [if_neg (by omega)]

/-- The value reader on the success path reduces to query plus truncation. -/
theorem read_node_history_success (cap : Nat) (rows : List VarRow) (node_id : NodeId)
    (start end_ : Option Time) (nb : Option Int) (now : Time)
    (hv : validate_table_name (_get_table_name node_id "var") = true) :
    (read_node_history cap ⟨true, false, false, false, false⟩ rows node_id start end_ nb now).2 =
      truncateResults cap
        ((queryVarRows rows (_get_bounds start end_ nb now)).map rowToDataValue) := by
  simp [read_node_history, hv]

/-- The event reader on the success path reduces to query plus truncation. -/
theorem read_event_history_success (cap : Nat) (ef : List (NodeId × List String))
    (rows : List EvtRow) (source_id : NodeId) (start end_ : Option Time)
    (nb : Option Int) (evfilter : EventFilter) (now : Time)
    (hv : validate_table_name (_get_table_name source_id "evt") = true) :
    (read_event_history cap ⟨true, false, false, false, false⟩ ef rows source_id
        start end_ nb evfilter now).2 =
      truncateEventResults cap
        ((queryEvtRows rows (_get_bounds start end_ nb now)).map
          (rowToEventDict (_get_select_clauses ef source_id evfilter).1))
        ((queryEvtRows rows (_get_bounds start end_ nb now)).map (·.timestamp)) := by
  simp [read_event_history, hv]

/-- C3 counterexample: with response cap 2, a range holding M = 3 rows and
caller maxCount C = 1, the value reader returns one row and an absent cursor,
although the claim requires a non-absent cursor whenever M exceeds the cap. -/
theorem c3_counterexample :
    (varScan
        [⟨1, 10, 10, 0, ("10"), ("Int64"), .enc ⟨.int 10, "Int64"⟩⟩,
         ⟨2, 20, 20, 0, ("20"), ("Int64"), .enc ⟨.int 20, "Int64"⟩⟩,
         ⟨3, 30, 30, 0, ("30"), ("Int64"), .enc ⟨.int 30, "Int64"⟩⟩]
        (_get_bounds (some 0) (some 100) (some 1) 50)).length = 3 ∧
    (2 : Nat) < 3 ∧
    (read_node_history 2 ⟨true, false, false, false, false⟩
        [⟨1, 10, 10, 0, ("10"), ("Int64"), .enc ⟨.int 10, "Int64"⟩⟩,
         ⟨2, 20, 20, 0, ("20"), ("Int64"), .enc ⟨.int 20, "Int64"⟩⟩,
         ⟨3, 30, 30, 0, ("30"), ("Int64"), .enc ⟨.int 30, "Int64"⟩⟩]
        ⟨1, UaIdentifier.str ("n")⟩ (some 0) (some 100) (some 1) 50).2.1.length = 1 ∧
    (read_node_history 2 ⟨true, false, false, false, false⟩
        [⟨1, 10, 10, 0, ("10"), ("Int64"), .enc ⟨.int 10, "Int64"⟩⟩,
         ⟨2, 20, 20, 0, ("20"), ("Int64"), .enc ⟨.int 20, "Int64"⟩⟩,
         ⟨3, 30, 30, 0, ("30"), ("Int64"), .enc ⟨.int 30, "Int64"⟩⟩]
        ⟨1, UaIdentifier.str ("n")⟩ (some 0) (some 100) (some 1) 50).2.2 = none := by
  decide

/-- C3 amended: on a successful read with positive maxCount C over a range
whose scan holds M rows, the page is truncated by the retrieved count
min(C, M): when min(C, M) exceeds the response cap, exactly cap rows are
returned together with a cursor holding the partition-column value of scan
row cap + 1; otherwise min(C, M) rows are returned and the cursor is absent.
This holds for both the value and the event reader. -/
theorem c3_pagination_amended (cap : Nat) (rows : List VarRow) (erows : List EvtRow)
    (ef : List (NodeId × List String)) (evfilter : EventFilter)
    (node_id source_id : NodeId) (start end_ : Option Time) (now : Time) (C : Int)
    (hC : 0 < C)
    (hv : validate_table_name (_get_table_name node_id "var") = true)
    (hv2 : validate_table_name (_get_table_name source_id "evt") = true) :
    (let scan := varScan rows (_get_bounds start end_ (some C) now)
     let r := (read_node_history cap ⟨true, false, false, false, false⟩ rows node_id
        start end_ (some C) now).2
     (cap < min C.toNat scan.length →
        r.1.length = cap ∧ r.2 = (scan[cap]?).map (·.sourcetimestamp)) ∧
     (min C.toNat scan.length ≤ cap →
        r.1.length = min C.toNat scan.length ∧ r.2 = none)) ∧
    (let scan := evtScan erows (_get_bounds start end_ (some C) now)
     let r := (read_event_history cap ⟨true, false, false, false, false⟩ ef erows source_id
        start end_ (some C) evfilter now).2
     (cap < min C.toNat scan.length →
        r.1.length = cap ∧ r.2 = (scan[cap]?).map (·.timestamp)) ∧
     (min C.toNat scan.length ≤ cap →
        r.1.length = min C.toNat scan.length ∧ r.2 = none)) := by
  have hCl : (_get_bounds start end_ (some C) now).limit = C :=
    _get_bounds_limit_pos start end_ now C (by omega)
  constructor
  · intro scan r
    have hq : queryVarRows rows (_get_bounds start end_ (some C) now) = scan.take C.toNat := by
      unfold queryVarRows
      rw [hCl]
    have hr : r = truncateResults cap ((scan.take C.toNat).map rowToDataValue) := by
      show (read_node_history cap ⟨true, false, false, false, false⟩ rows node_id
        start end_ (some C) now).2 = _
      rw [read_node_history_success cap rows node_id start end_ (some C) now hv, hq]
    have hts := truncate_take_spec cap C.toNat scan
    constructor
    · intro h
      refine ⟨?_, ?_⟩
      · rw [hr, hts.1]; omega
      · rw [hr, hts.2.1 h]
    · intro h
      refine ⟨?_, ?_⟩
      · rw [hr, hts.1]; omega
      · rw [hr, hts.2.2 h]
  · intro scan r
    have hq : queryEvtRows erows (_get_bounds start end_ (some C) now) = scan.take C.toNat := by
      unfold queryEvtRows
      rw [hCl]
    have hr : r = truncateEventResults cap
        ((scan.take C.toNat).map (rowToEventDict (_get_select_clauses ef source_id evfilter).1))
        ((scan.take C.toNat).map (·.timestamp)) := by
      show (read_event_history cap ⟨true, false, false, false, false⟩ ef erows source_id
        start end_ (some C) evfilter now).2 = _
      rw [read_event_history_success cap ef erows source_id start end_ (some C) evfilter now hv2,
        hq]
    have hts := truncate_evt_take_spec cap C.toNat scan
      (_get_select_clauses ef source_id evfilter).1
    constructor
    · intro h
      refine ⟨?_, ?_⟩
      · rw [hr, hts.1]; omega
      · rw [hr, hts.2.1 h]
    · intro h
      refine ⟨?_, ?_⟩
      · rw [hr, hts.1]; omega
      · rw [hr, hts.2.2 h]

/-- Witness for C3 amended at a concrete input: cap 1, C = 2, two rows in
range; min(C, M) = 2 exceeds the cap, so one row comes back and the cursor
holds the second scan row's timestamp. -/
theorem c3_pagination_amended_witness :
    (read_node_history 1 ⟨true, false, false, false, false⟩
        [⟨1, 10, 10, 0, ("10"), ("Int64"), .enc ⟨.int 10, "Int64"⟩⟩,
         ⟨2, 20, 20, 0, ("20"), ("Int64"), .enc ⟨.int 20, "Int64"⟩⟩]
        ⟨1, UaIdentifier.str ("n")⟩ (some 0) (some 100) (some 2) 50).2.1.length = 1 ∧
    (read_node_history 1 ⟨true, false, false, false, false⟩
        [⟨1, 10, 10, 0, ("10"), ("Int64"), .enc ⟨.int 10, "Int64"⟩⟩,
         ⟨2, 20, 20, 0, ("20"), ("Int64"), .enc ⟨.int 20, "Int64"⟩⟩]
        ⟨1, UaIdentifier.str ("n")⟩ (some 0) (some 100) (some 2) 50).2.2 = some 20 := by
  have h := ((c3_pagination_amended 1
      [⟨1, 10, 10, 0, ("10"), ("Int64"), .enc ⟨.int 10, "Int64"⟩⟩,
       ⟨2, 20, 20, 0, ("20"), ("Int64"), .enc ⟨.int 20, "Int64"⟩⟩]
      [] [] ⟨[]⟩ ⟨1, UaIdentifier.str ("n")⟩ ⟨1, UaIdentifier.str ("n")⟩
      (some 0) (some 100) 50 2 (by omega) (by decide) (by decide)).1).1 (by decide)
  refine ⟨h.1, ?_⟩
  rw [h.2]
  decide

/-! ## Claim C6: read failure containment -/

/-- Every non-success path of the value reader — invalid name, missing
table, or a failing round trip — yields the empty page with an absent
cursor (the `except` block logs and falls through; no exception escapes,
as the reader is a total function by construction). -/
theorem read_node_history_snd_empty (cap : Nat) (env : ReadEnv) (rows : List VarRow)
    (node_id : NodeId) (start end_ : Option Time) (nb : Option Int) (now : Time)
    (h : env.failExists = true ∨ env.table_present = false ∨ env.failCountAll = true ∨
      env.failCountRange = true ∨ env.failSelect = true ∨
      validate_table_name (_get_table_name node_id "var") = false) :
    (read_node_history cap env rows node_id start end_ nb now).2 = ([], none) := by
  obtain ⟨tp, fe, fca, fcr, fs⟩ := env
  by_cases hv : validate_table_name (_get_table_name node_id "var") <;>
    simp [hv] at h <;>
    cases fe <;> cases tp <;> cases fca <;> cases fcr <;> cases fs <;>
    simp_all [read_node_history, hv, truncateResults]

/-- Every non-success path of the event reader yields the empty page with an
absent cursor. -/
theorem read_event_history_snd_empty (cap : Nat) (env : ReadEnv)
    (ef : List (NodeId × List String)) (rows : List EvtRow) (source_id : NodeId)
    (start end_ : Option Time) (nb : Option Int) (evfilter : EventFilter) (now : Time)
    (h : env.failExists = true ∨ env.table_present = false ∨ env.failCountAll = true ∨
      env.failCountRange = true ∨ env.failSelect = true ∨
      validate_table_name (_get_table_name source_id "evt") = false) :
    (read_event_history cap env ef rows source_id start end_ nb evfilter now).2 = ([], none) := by
  obtain ⟨tp, fe, fca, fcr, fs⟩ := env
  by_cases hv : validate_table_name (_get_table_name source_id "evt") <;>
    simp [hv] at h <;>
    cases fe <;> cases tp <;> cases fca <;> cases fcr <;> cases fs <;>
    simp_all [read_event_history, hv, truncateEventResults]

/-- C6: the readers never raise to the caller (they are total functions of
the injected failure environment, every exception being caught inside the
read body): a missing target table yields the empty result list with an
absent cursor, and so does a failure of any of the query round trips, for
both the value and the event reader. -/
theorem c6_read_failures (cap : Nat) (env : ReadEnv) (ef : List (NodeId × List String))
    (rows : List VarRow) (erows : List EvtRow) (node_id source_id : NodeId)
    (start end_ : Option Time) (nb : Option Int) (evfilter : EventFilter) (now : Time) :
    (env.table_present = false →
      (read_node_history cap env rows node_id start end_ nb now).2 = ([], none) ∧
      (read_event_history cap env ef erows source_id start end_ nb evfilter now).2 =
        ([], none)) ∧
    ((env.failExists = true ∨ env.failCountAll = true ∨ env.failCountRange = true ∨
        env.failSelect = true) →
      (read_node_history cap env rows node_id start end_ nb now).2 = ([], none) ∧
      (read_event_history cap env ef erows source_id start end_ nb evfilter now).2 =
        ([], none)) := by
  constructor
  · intro h
    exact ⟨read_node_history_snd_empty cap env rows node_id start end_ nb now
        (Or.inr (Or.inl h)),
      read_event_history_snd_empty cap env ef erows source_id start end_ nb evfilter now
        (Or.inr (Or.inl h))⟩
  · intro h
    refine ⟨read_node_history_snd_empty cap env rows node_id start end_ nb now ?_,
      read_event_history_snd_empty cap env ef erows source_id start end_ nb evfilter now ?_⟩
    · rcases h with h | h | h | h
      · exact Or.inl h
      · exact Or.inr (Or.inr (Or.inl h))
      · exact Or.inr (Or.inr (Or.inr (Or.inl h)))
      · exact Or.inr (Or.inr (Or.inr (Or.inr (Or.inl h))))
    · rcases h with h | h | h | h
      · exact Or.inl h
      · exact Or.inr (Or.inr (Or.inl h))
      · exact Or.inr (Or.inr (Or.inr (Or.inl h)))
      · exact Or.inr (Or.inr (Or.inr (Or.inr (Or.inl h))))

/-- Witness for C6 at a concrete input: a missing table and, separately, a
failing select both return the empty page for the value reader. -/
theorem c6_read_failures_witness :
    (read_node_history 10000 ⟨false, false, false, false, false⟩ []
        ⟨1, UaIdentifier.str ("n")⟩ none none none 0).2 = ([], none) ∧
    (read_node_history 10000 ⟨true, false, false, false, true⟩ []
        ⟨1, UaIdentifier.str ("n")⟩ none none none 0).2 = ([], none) := by
  exact ⟨((c6_read_failures 10000 ⟨false, false, false, false, false⟩ [] [] []
      ⟨1, UaIdentifier.str ("n")⟩ ⟨1, UaIdentifier.str ("n")⟩ none none none ⟨[]⟩ 0).1 rfl).1,
    ((c6_read_failures 10000 ⟨true, false, false, false, true⟩ [] [] []
      ⟨1, UaIdentifier.str ("n")⟩ ⟨1, UaIdentifier.str ("n")⟩ none none none ⟨[]⟩ 0).2
      (Or.inr (Or.inr (Or.inr rfl)))).1⟩

/-! ## Claim C5: write failure containment -/

/-- C5 counterexample: `save_node_value` does not return normally on every
input.  Writing to a node that was never registered raises a `KeyError` from
the policy lookup (after the insert), and writing to a registered node whose
derived table name fails validation raises a `ValueError` from the retention
guard that sits outside any `try` block. -/
theorem c5_counterexample :
    (save_node_value [] ⟨false, false, false⟩ 0 0 []
        ⟨1, UaIdentifier.str ("n")⟩ ⟨⟨.int 0, "Int64"⟩, 0, 0, 0⟩).err = some .keyError ∧
    (save_node_value [(⟨1, UaIdentifier.str ("a;b")⟩, Entry.node (some 5) 0)]
        ⟨false, false, false⟩ 0 0 []
        ⟨1, UaIdentifier.str ("a;b")⟩ ⟨⟨.int 0, "Int64"⟩, 0, 0, 0⟩).err = some .valueError := by
  decide

/-- C5 amended: for a node registered under the entity key with a
value-registration entry and a well-formed table name, `save_node_value`
returns normally under every combination of insert and retention-delete
failures — storage errors are logged and swallowed.  `save_event` returns
normally (for any table name) whenever the event's emitting node is either
absent from the retention map or carries an event-registration period, and
a `None` event is ignored. -/
theorem c5_save_amended
    (dcp : List (NodeId × Entry)) (env : SaveEnv) (eenv : SaveEventEnv) (now : Time)
    (nextId : Nat) (rows : List VarRow) (erows : List EvtRow) (node_id : NodeId)
    (dv : DataValue) (ev : UaEvent) (p : Option Int) (cnt : Int)
    (hreg : lookupEntry dcp node_id = some (.node p cnt))
    (hv : validate_table_name (_get_table_name node_id "var") = true)
    (hemit : lookupEntry dcp ev.emitting_node = none ∨
      ∃ q, lookupEntry dcp ev.emitting_node = some (.evt q)) :
    (save_node_value dcp env now nextId rows node_id dv).err = none ∧
    (save_event dcp eenv now nextId erows (some ev)).err = none ∧
    (save_event dcp eenv now nextId erows none).err = none := by
  refine ⟨?_, ?_, by simp [save_event]⟩
  · obtain ⟨iF, aF, cF⟩ := env
    cases p with
    | none =>
      by_cases hc : cnt ≠ 0 <;> cases iF <;> cases aF <;> cases cF <;>
        simp [save_node_value, hreg, hv, hc]
    | some q =>
      by_cases hq : q ≠ 0 <;> by_cases hc : cnt ≠ 0 <;> cases iF <;> cases aF <;> cases cF <;>
        simp [save_node_value, hreg, hv, hq, hc]
  · obtain ⟨sn, et, tm, emn, flds⟩ := ev
    simp only [] at hemit
    obtain ⟨iF, dF, tsF, mC⟩ := eenv
    cases sn with
    | none => simp [save_event]
    | some src =>
      cases et with
      | none => simp [save_event]
      | some etype =>
        rcases hemit with hemit | ⟨q, hemit⟩
        · by_cases hv2 : validate_table_name (_get_table_name src "evt") = true <;>
            cases iF <;> cases dF <;> cases tsF <;>
            simp [save_event, hemit, hv2]
        · cases q with
          | none =>
            by_cases hv2 : validate_table_name (_get_table_name src "evt") = true <;>
              cases iF <;> cases dF <;> cases tsF <;>
              simp [save_event, hemit, hv2]
          | some d =>
            by_cases hd : d ≠ 0 <;>
              by_cases hv2 : validate_table_name (_get_table_name src "evt") = true <;>
              cases iF <;> cases dF <;> cases tsF <;>
              simp [save_event, hemit, hv2, hd]

/-- Witness for C5 amended at a concrete input: registered node, valid
name, failing insert and failing deletes — the write still returns
normally, as does an event save with an unregistered emitting node. -/
theorem c5_save_amended_witness :
    (save_node_value [(⟨1, UaIdentifier.str ("n")⟩, Entry.node (some 5) 3)]
        ⟨true, true, true⟩ 0 0 [] ⟨1, UaIdentifier.str ("n")⟩
        ⟨⟨.int 0, "Int64"⟩, 0, 0, 0⟩).err = none ∧
    (save_event [(⟨1, UaIdentifier.str ("n")⟩, Entry.node (some 5) 3)]
        ⟨true, true, true, []⟩ 0 0 []
        (some ⟨some ⟨2, UaIdentifier.str ("s")⟩, some ("BaseEvent"), some 7,
          ⟨9, UaIdentifier.str ("other")⟩, []⟩)).err = none := by
  have h := c5_save_amended [(⟨1, UaIdentifier.str ("n")⟩, Entry.node (some 5) 3)]
    ⟨true, true, true⟩ ⟨true, true, true, []⟩ 0 0 [] []
    ⟨1, UaIdentifier.str ("n")⟩ ⟨⟨.int 0, "Int64"⟩, 0, 0, 0⟩
    ⟨some ⟨2, UaIdentifier.str ("s")⟩, some ("BaseEvent"), some 7,
      ⟨9, UaIdentifier.str ("other")⟩, []⟩ (some 5) 3
    (by decide) (by decide) (Or.inl (by decide))
  exact ⟨h.1, h.2.1⟩

/-! ## Claim C10: event retention keying -/

/-- Whether a call is the age-retention delete of the event write path. -/
def DbCall.isRetentionDelete : DbCall → Bool
  | .deleteFrom _ (.evtOlderThan _) => true
  | _ => false

theorem ensureColumnsCalls_not_delete (t : String) (fs ms : List String) :
    ∀ c ∈ ensureColumnsCalls t fs ms, c.isRetentionDelete = false := by
  induction fs with
  | nil => intro c hc; cases hc
  | cons f rest ih =>
    intro c hc
    simp only [ensureColumnsCalls, List.map_cons, List.foldr_cons] at hc
    rw [List.mem_append] at hc
    rcases hc with hc | hc
    · rcases List.mem_cons.mp hc with rfl | hc2
      · rfl
      · by_cases hm : f ∈ ms
        · rw [if_pos hm, List.mem_singleton] at hc2
          subst hc2
          rfl
        · rw [if_neg hm] at hc2
          cases hc2
    · exact ih c hc

/-- The retention segment of the call list of `save_event`: the single age
delete when the emitting-node entry is a truthy bare period, else nothing. -/
def retentionTail (dcp : List (NodeId × Entry)) (emn : NodeId) (table : String)
    (now : Time) : List DbCall :=
  match lookupEntry dcp emn with
  | some (.evt (some d)) =>
    if d ≠ 0 then [.deleteFrom table (.evtOlderThan (now - d))] else []
  | _ => []

theorem mem_retentionTail (dcp : List (NodeId × Entry)) (emn : NodeId) (table : String)
    (now : Time) (c : DbCall) :
    c ∈ retentionTail dcp emn table now ↔
      ∃ d, lookupEntry dcp emn = some (.evt (some d)) ∧ d ≠ 0 ∧
        c = .deleteFrom table (.evtOlderThan (now - d)) := by
  unfold retentionTail
  cases hl : lookupEntry dcp emn with
  | none => simp
  | some e =>
    cases e with
    | node q k => simp
    | evt p =>
      cases p with
      | none => simp
      | some d => by_cases hd : d ≠ 0 <;> simp [hd]

/-- The calls issued by a well-formed `save_event` on the normal path
(timestamp column present, valid name): the insert-path calls followed by
the retention segment. -/
theorem save_event_calls_eq (dcp : List (NodeId × Entry)) (iF dF : Bool) (mC : List String)
    (now : Time) (nextId : Nat) (erows : List EvtRow) (src : NodeId) (etype : String)
    (tm : Option Time) (emn : NodeId) (flds : List (String × Variant))
    (hv : validate_table_name (_get_table_name src "evt") = true) :
    (save_event dcp ⟨iF, dF, true, mC⟩ now nextId erows
        (some ⟨some src, some etype, tm, emn, flds⟩)).calls =
      ((if (_format_event flds).2.2.2.isEmpty then []
        else ensureColumnsCalls (_get_table_name src "evt") (_format_event flds).2.2.2 mC) ++
       [DbCall.checkTimestampColumn (_get_table_name src "evt"),
        DbCall.insertEvent (_get_table_name src "evt") (tm.getD now) etype
          (_format_event flds).2.2.1]) ++
      retentionTail dcp emn (_get_table_name src "evt") now := by
  unfold retentionTail
  cases hl : lookupEntry dcp emn with
  | none => cases iF <;> simp [save_event, hl, hv]
  | some e =>
    cases e with
    | node q k => cases iF <;> simp [save_event, hl, hv]
    | evt p =>
      cases p with
      | none => cases iF <;> simp [save_event, hl, hv]
      | some d =>
        by_cases hd : d ≠ 0
        · cases iF <;> cases dF <;> simp [save_event, hl, hv, hd]
        · push_neg at hd
          subst hd
          cases iF <;> simp [save_event, hl, hv]

/-- C10: with the timestamp column present and a valid derived table name,
`save_event` issues an age-retention delete exactly when the shared
retention map holds a truthy bare period under the key
`event.emitting_node`; every such delete targets the table derived from
`event.SourceNode`; and when the emitting node is not an event-registered
key (absent, or holding a value-registration pair), no retention delete is
issued even if a period is registered for the source node. -/
theorem c10_event_retention (dcp : List (NodeId × Entry)) (iF dF : Bool)
    (mC : List String) (now : Time) (nextId : Nat) (erows : List EvtRow)
    (src : NodeId) (etype : String) (tm : Option Time) (emn : NodeId)
    (flds : List (String × Variant))
    (hv : validate_table_name (_get_table_name src "evt") = true) :
    ((∃ c ∈ (save_event dcp ⟨iF, dF, true, mC⟩ now nextId erows
        (some ⟨some src, some etype, tm, emn, flds⟩)).calls, c.isRetentionDelete = true) ↔
      (∃ d, lookupEntry dcp emn = some (.evt (some d)) ∧ d ≠ 0)) ∧
    (∀ c ∈ (save_event dcp ⟨iF, dF, true, mC⟩ now nextId erows
        (some ⟨some src, some etype, tm, emn, flds⟩)).calls, c.isRetentionDelete = true →
      ∃ ts, c = .deleteFrom (_get_table_name src "evt") (.evtOlderThan ts)) ∧
    ((lookupEntry dcp emn = none ∨ ∃ q k, lookupEntry dcp emn = some (.node q k)) →
      ∀ c ∈ (save_event dcp ⟨iF, dF, true, mC⟩ now nextId erows
        (some ⟨some src, some etype, tm, emn, flds⟩)).calls, c.isRetentionDelete = false) := by
  have hc := save_event_calls_eq dcp iF dF mC now nextId erows src etype tm emn flds hv
  have hbase : ∀ c ∈ (if (_format_event flds).2.2.2.isEmpty then []
      else ensureColumnsCalls (_get_table_name src "evt") (_format_event flds).2.2.2 mC) ++
      [DbCall.checkTimestampColumn (_get_table_name src "evt"),
       DbCall.insertEvent (_get_table_name src "evt") (tm.getD now) etype
         (_format_event flds).2.2.1],
      c.isRetentionDelete = false := by
    intro c hcm
    rw [List.mem_append] at hcm
    rcases hcm with hcm | hcm
    · split at hcm
      · cases hcm
      · exact ensureColumnsCalls_not_delete _ _ _ c hcm
    · rcases List.mem_cons.mp hcm with rfl | hcm2
      · rfl
      · rw [List.mem_singleton] at hcm2
        subst hcm2
        rfl
  refine ⟨⟨?_, ?_⟩, ?_, ?_⟩
  · rintro ⟨c, hmem, hdel⟩
    rw [hc, List.mem_append] at hmem
    rcases hmem with hmem | hmem
    · rw [hbase c hmem] at hdel
      exact Bool.noConfusion hdel
    · obtain ⟨d, hl, hd, rfl⟩ := (mem_retentionTail dcp emn _ now c).mp hmem
      exact ⟨d, hl, hd⟩
  · rintro ⟨d, hl, hd⟩
    refine ⟨DbCall.deleteFrom (_get_table_name src "evt") (.evtOlderThan (now - d)), ?_, rfl⟩
    rw [hc]
    exact List.mem_append_right _
      ((mem_retentionTail dcp emn _ now _).mpr ⟨d, hl, hd, rfl⟩)
  · intro c hmem hdel
    rw [hc, List.mem_append] at hmem
    rcases hmem with hmem | hmem
    · rw [hbase c hmem] at hdel
      exact Bool.noConfusion hdel
    · obtain ⟨d, hl, hd, rfl⟩ := (mem_retentionTail dcp emn _ now c).mp hmem
      exact ⟨now - d, rfl⟩
  · intro hno c hmem
    rw [hc, List.mem_append] at hmem
    rcases hmem with hmem | hmem
    · exact hbase c hmem
    · obtain ⟨d, hl, hd, rfl⟩ := (mem_retentionTail dcp emn _ now c).mp hmem
      rcases hno with hno | ⟨q, k, hno⟩ <;> rw [hno] at hl <;> cases hl

/-- Witness for C10 at a concrete input: the emitting node carries the
period, the source node does not, and the single retention delete targets
the source-node table. -/
theorem c10_event_retention_witness :
    (∃ c ∈ (save_event [(⟨9, UaIdentifier.str ("emitter")⟩, Entry.evt (some 5))]
        ⟨false, false, true, []⟩ 100 0 []
        (some ⟨some ⟨2, UaIdentifier.str ("s")⟩, some ("BaseEvent"), some 7,
          ⟨9, UaIdentifier.str ("emitter")⟩, []⟩)).calls, c.isRetentionDelete = true) := by
  exact ((c10_event_retention [(⟨9, UaIdentifier.str ("emitter")⟩, Entry.evt (some 5))]
      false false [] 100 0 [] ⟨2, UaIdentifier.str ("s")⟩ ("BaseEvent") (some 7)
      ⟨9, UaIdentifier.str ("emitter")⟩ [] (by decide)).1).mpr
    ⟨5, by decide, by decide⟩

/-! ## Claim C9: event row formatting -/

theorem insertSorted_perm {α : Type} (le : α → α → Bool) (a : α) (l : List α) :
    (insertSorted le a l).Perm (a :: l) := by
  induction l with
  | nil => exact List.Perm.refl _
  | cons b t ih =>
    unfold insertSorted
    split
    · exact List.Perm.refl _
    · exact (ih.cons b).trans (List.Perm.swap a b t)

theorem sortBy_perm {α : Type} (le : α → α → Bool) (l : List α) :
    (sortBy le l).Perm l := by
  induction l with
  | nil => exact List.Perm.refl _
  | cons a t ih => exact (insertSorted_perm le a (sortBy le t)).trans (ih.cons a)

theorem insertSorted_pairwise {α : Type} (le : α → α → Bool)
    (htrans : ∀ x y z, le x y = true → le y z = true → le x z = true)
    (htot : ∀ x y, le x y = true ∨ le y x = true) (a : α) (l : List α)
    (h : l.Pairwise fun x y => le x y = true) :
    (insertSorted le a l).Pairwise (fun x y => le x y = true) := by
  induction l with
  | nil => simp [insertSorted]
  | cons b t ih =>
    obtain ⟨hb, ht⟩ := List.pairwise_cons.mp h
    unfold insertSorted
    split
    next hab =>
      refine List.pairwise_cons.mpr ⟨?_, h⟩
      intro y hy
      rcases List.mem_cons.mp hy with rfl | hy2
      · exact hab
      · exact htrans a b y hab (hb y hy2)
    next hab =>
      have hba : le b a = true := by
        rcases htot a b with h1 | h1
        · exact absurd h1 hab
        · exact h1
      refine List.pairwise_cons.mpr ⟨?_, ih ht⟩
      intro y hy
      rcases List.mem_cons.mp ((insertSorted_perm le a t).mem_iff.mp hy) with rfl | hy3
      · exact hba
      · exact hb y hy3

theorem sortBy_pairwise {α : Type} (le : α → α → Bool)
    (htrans : ∀ x y z, le x y = true → le y z = true → le x z = true)
    (htot : ∀ x y, le x y = true ∨ le y x = true) (l : List α) :
    (sortBy le l).Pairwise (fun x y => le x y = true) := by
  induction l with
  | nil => simp [sortBy]
  | cons a t ih => exact insertSorted_pairwise le htrans htot a _ ih

theorem charListLe_iff : ∀ as bs : List Char, charListLe as bs = true ↔ ¬ bs < as := by
  intro as
  induction as with
  | nil =>
    intro bs
    constructor
    · intro _ hlt
      cases hlt
    · intro _
      rfl
  | cons a as ih =>
    intro bs
    cases bs with
    | nil =>
      constructor
      · intro h
        exact Bool.noConfusion h
      · intro h
        exact absurd List.Lex.nil h
    | cons b bs =>
      show (if a < b then true else if b < a then false else charListLe as bs) = true ↔ _
      by_cases hab : a < b
      · rw [if_pos hab]
        simp only [true_iff]
        intro hlt
        cases hlt with
        | rel h => exact lt_asymm hab h
        | cons h => exact lt_irrefl _ hab
      · rw [if_neg hab]
        by_cases hba : b < a
        · rw [if_pos hba]
          constructor
          · intro h
            exact Bool.noConfusion h
          · intro h
            exact (h (List.Lex.rel hba)).elim
        · rw [if_neg hba]
          have hEq : a = b := le_antisymm (not_lt.mp hba) (not_lt.mp hab)
          subst hEq
          rw [ih bs]
          constructor
          · intro h hlt
            cases hlt with
            | rel hr => exact lt_irrefl _ hr
            | cons hc => exact h hc
          · intro h hlt
            exact h (List.Lex.cons hlt)

/-- The model comparison agrees with the library string order. -/
theorem strLe_iff (a b : String) : strLe a b = true ↔ a ≤ b := by
  rw [show (a ≤ b) = ¬ b < a from rfl]
  rw [String.lt_iff_toList_lt]
  exact charListLe_iff a.data b.data

theorem foldl_double_append {α β γ : Type} (f : α → β) (g : α → γ) :
    ∀ (l : List α) (acc : List β × List γ),
      (l.foldl (fun acc p => (acc.1 ++ [f p], acc.2 ++ [g p])) acc) =
        (acc.1 ++ l.map f, acc.2 ++ l.map g) := by
  intro l
  induction l with
  | nil => intro acc; simp
  | cons a t ih =>
    intro acc
    rw [List.foldl_cons, ih]
    simp

/-- Closed form of `_format_event` on a nonempty field dictionary. -/
theorem format_event_eq (d : List (String × Variant)) (hne : d ≠ []) :
    _format_event d =
      (_list_to_sql_str (sortBy strLe (d.map Prod.fst)),
       String.intercalate (", ")
         ((List.range (sortBy strLe (d.map Prod.fst)).length).map
           (fun i => "$" ++ toString (3 + i))),
       (sortBy strLe (d.map Prod.fst)).map (fun nm => variant_to_binary (dictLookup d nm)),
       sortBy strLe (d.map Prod.fst)) := by
  have hlen : (sortBy strLe (d.map Prod.fst)).length = d.length :=
    (sortBy_perm strLe (d.map Prod.fst)).length_eq.trans (List.length_map d Prod.fst)
  have hne2 : (sortBy strLe (d.map Prod.fst)).isEmpty = false := by
    cases hs : sortBy strLe (d.map Prod.fst) with
    | nil =>
      rw [hs] at hlen
      cases d with
      | nil => exact absurd rfl hne
      | cons x xs => simp at hlen
    | cons x xs => rfl
  unfold _format_event
  simp only [hne2, Bool.false_eq_true, if_false]
  rw [foldl_double_append (fun p : Nat × String => "$" ++ toString (3 + p.1))
    (fun p : Nat × String => variant_to_binary (dictLookup d p.2))]
  simp only [List.nil_append]
  have h1 : (sortBy strLe (d.map Prod.fst)).enum.map
      (fun p : Nat × String => "$" ++ toString (3 + p.1)) =
      (List.range (sortBy strLe (d.map Prod.fst)).length).map (fun i => "$" ++ toString (3 + i)) := by
    rw [show (fun p : Nat × String => "$" ++ toString (3 + p.1)) =
      ((fun i : Nat => "$" ++ toString (3 + i)) ∘ Prod.fst) from rfl]
    rw [← List.map_map, List.enum_map_fst]
  have h2 : (sortBy strLe (d.map Prod.fst)).enum.map
      (fun p : Nat × String => variant_to_binary (dictLookup d p.2)) =
      (sortBy strLe (d.map Prod.fst)).map (fun nm => variant_to_binary (dictLookup d nm)) := by
    rw [show (fun p : Nat × String => variant_to_binary (dictLookup d p.2)) =
      ((fun nm : String => variant_to_binary (dictLookup d nm)) ∘ Prod.snd) from rfl]
    rw [← List.map_map, List.enum_map_snd]
  rw [h1, h2]

/-- C9: for an event with a nonempty field dictionary, the formatter returns
the field names sorted ascending (by code point, Python `list.sort`), a
permutation of the dictionary keys, the encoded values in exactly that
order, and the positional placeholders from the third slot up; and on the
normal write path the executed insert binds
(timestamp, event type name, name-sorted field values) in that order. -/
theorem c9_format_event (d : List (String × Variant)) (hne : d ≠ []) :
    ((_format_event d).2.2.2.Pairwise fun a b => a ≤ b) ∧
    ((_format_event d).2.2.2.Perm (d.map Prod.fst)) ∧
    ((_format_event d).2.2.1 =
      (_format_event d).2.2.2.map (fun nm => variant_to_binary (dictLookup d nm))) ∧
    ((_format_event d).2.1 = String.intercalate (", ")
      ((List.range (_format_event d).2.2.2.length).map (fun i => "$" ++ toString (3 + i)))) ∧
    ((_format_event d).1 = _list_to_sql_str (_format_event d).2.2.2) ∧
    (∀ (dcp : List (NodeId × Entry)) (dF : Bool) (mC : List String) (now : Time)
      (nextId : Nat) (erows : List EvtRow) (src : NodeId) (etype : String)
      (tm : Option Time) (emn : NodeId),
      validate_table_name (_get_table_name src "evt") = true →
      DbCall.insertEvent (_get_table_name src "evt") (tm.getD now) etype
          (_format_event d).2.2.1 ∈
        (save_event dcp ⟨false, dF, true, mC⟩ now nextId erows
          (some ⟨some src, some etype, tm, emn, d⟩)).calls) := by
  have hfmt := format_event_eq d hne
  have hsorted : (sortBy strLe (d.map Prod.fst)).Pairwise fun a b => a ≤ b := by
    have h := sortBy_pairwise strLe
      (fun x y z hxy hyz =>
        (strLe_iff x z).mpr (le_trans ((strLe_iff x y).mp hxy) ((strLe_iff y z).mp hyz)))
      (fun x y => (le_total x y).imp (strLe_iff x y).mpr (strLe_iff y x).mpr)
      (d.map Prod.fst)
    exact h.imp (fun hab => (strLe_iff _ _).mp hab)
  refine ⟨?_, ?_, ?_, ?_, ?_, ?_⟩
  · rw [hfmt]
    exact hsorted
  · rw [hfmt]
    exact sortBy_perm strLe (d.map Prod.fst)
  · rw [hfmt]
  · rw [hfmt]
  · rw [hfmt]
  · intro dcp dF mC now nextId erows src etype tm emn hv
    rw [save_event_calls_eq dcp false dF mC now nextId erows src etype tm emn d hv]
    exact List.mem_append_left _
      (List.mem_append_right _ (List.mem_cons_of_mem _ (List.mem_singleton_self _)))

/-- Witness for C9 at a concrete input: two fields B and A come back sorted
as A, B with placeholders from slot three. -/
theorem c9_format_event_witness :
    (_format_event [(("B"), ⟨.int 1, "Int64"⟩), (("A"), ⟨.int 2, "Int64"⟩)]).2.2.2 =
      [("A"), ("B")] ∧
    (_format_event [(("B"), ⟨.int 1, "Int64"⟩), (("A"), ⟨.int 2, "Int64"⟩)]).2.1 =
      ("$3, $4") := by
  have h := c9_format_event [(("B"), ⟨.int 1, "Int64"⟩), (("A"), ⟨.int 2, "Int64"⟩)]
    (by decide)
  refine ⟨by decide, ?_⟩
  rw [h.2.2.2.1]
  decide

/-! ## Claim C1: identifier validation -/

/-- On a rejected table name, `save_node_value` issues no calls and leaves
the table untouched (the insert is aborted by the caught `ValueError`, and
the retention guards raise before their deletes). -/
theorem save_node_value_invalid (dcp : List (NodeId × Entry)) (senv : SaveEnv) (now : Time)
    (nextId : Nat) (rows : List VarRow) (node_id : NodeId) (dv : DataValue)
    (hv : validate_table_name (_get_table_name node_id "var") = false) :
    (save_node_value dcp senv now nextId rows node_id dv).calls = [] ∧
    (save_node_value dcp senv now nextId rows node_id dv).rows = rows := by
  cases hl : lookupEntry dcp node_id with
  | none => simp [save_node_value, hv, hl]
  | some e =>
    cases e with
    | evt p => simp [save_node_value, hv, hl]
    | node p cnt =>
      cases p with
      | none => by_cases hc : cnt ≠ 0 <;> simp [save_node_value, hv, hl, hc]
      | some q =>
        by_cases hq : q ≠ 0 <;> by_cases hc : cnt ≠ 0 <;>
          simp [save_node_value, hv, hl, hq, hc]

/-- On a rejected table name, `save_event` issues no calls and leaves the
table untouched. -/
theorem save_event_invalid (dcp : List (NodeId × Entry)) (eenv : SaveEventEnv) (now : Time)
    (nextId : Nat) (erows : List EvtRow) (src : NodeId) (etype : Option String)
    (tm : Option Time) (emn : NodeId) (flds : List (String × Variant))
    (hv : validate_table_name (_get_table_name src "evt") = false) :
    (save_event dcp eenv now nextId erows (some ⟨some src, etype, tm, emn, flds⟩)).calls = [] ∧
    (save_event dcp eenv now nextId erows (some ⟨some src, etype, tm, emn, flds⟩)).rows =
      erows := by
  cases etype with
  | none => simp [save_event]
  | some et =>
    cases hl : lookupEntry dcp emn with
    | none => simp [save_event, hv, hl]
    | some e =>
      cases e with
      | node q k => simp [save_event, hv, hl]
      | evt p =>
        cases p with
        | none => simp [save_event, hv, hl]
        | some d => by_cases hd : d ≠ 0 <;> simp [save_event, hv, hl, hd]

/-- C1 counterexample: the regex allow-list accepts Unicode word characters,
so an identifier outside ASCII `[A-Za-z0-9_-]` (here Cyrillic) passes
validation and the write reaches the database — the claim's character class
is too narrow. -/
theorem c1_counterexample :
    (∃ c ∈ (_get_table_name ⟨1, UaIdentifier.str ("Тест")⟩ "var").data,
      ¬ (c.isAlphanum || c == '_' || c == '-') = true) ∧
    validate_table_name (_get_table_name ⟨1, UaIdentifier.str ("Тест")⟩ "var") = true ∧
    (save_node_value [(⟨1, UaIdentifier.str ("Тест")⟩, Entry.node none 0)]
        ⟨false, false, false⟩ 0 0 [] ⟨1, UaIdentifier.str ("Тест")⟩
        ⟨⟨.int 0, "Int64"⟩, 0, 0, 0⟩).calls ≠ [] := by
  decide

/-- C1 amended: whenever the derived table name is rejected by the
validation pattern (one or more word characters or hyphens — Unicode word
characters included), every write, read and registration operation on that
entity aborts with the validation error and performs zero database calls:
registrations issue no DDL, writes issue no statements and leave the table
unchanged, and reads issue no queries and return the empty page. -/
theorem c1_invalid_name_amended
    (dcp : List (NodeId × Entry)) (ef : List (NodeId × List String))
    (senv : SaveEnv) (eenv : SaveEventEnv) (renv : ReadEnv) (denv : DdlEnv)
    (cap : Nat) (now : Time) (nextId : Nat) (rows : List VarRow) (erows : List EvtRow)
    (node_id source_id : NodeId) (dv : DataValue) (start end_ : Option Time)
    (nb : Option Int) (evfilter : EventFilter) (evtypes : List (List String))
    (period : Option Int) (count : Int) (etype : Option String) (tm : Option Time)
    (emn : NodeId) (flds : List (String × Variant))
    (hv : validate_table_name (_get_table_name node_id "var") = false)
    (hv2 : validate_table_name (_get_table_name source_id "evt") = false) :
    ((new_historized_node dcp ef denv node_id period count).calls = []) ∧
    ((save_node_value dcp senv now nextId rows node_id dv).calls = [] ∧
      (save_node_value dcp senv now nextId rows node_id dv).rows = rows) ∧
    ((read_node_history cap renv rows node_id start end_ nb now).1 = [] ∧
      (read_node_history cap renv rows node_id start end_ nb now).2 = ([], none)) ∧
    ((new_historized_event dcp ef denv source_id evtypes period count).calls = []) ∧
    ((save_event dcp eenv now nextId erows
        (some ⟨some source_id, etype, tm, emn, flds⟩)).calls = [] ∧
      (save_event dcp eenv now nextId erows
        (some ⟨some source_id, etype, tm, emn, flds⟩)).rows = erows) ∧
    ((read_event_history cap renv ef erows source_id start end_ nb evfilter now).1 = [] ∧
      (read_event_history cap renv ef erows source_id start end_ nb evfilter now).2 =
        ([], none)) := by
  refine ⟨?_, save_node_value_invalid dcp senv now nextId rows node_id dv hv,
    ⟨?_, read_node_history_snd_empty cap renv rows node_id start end_ nb now
      (Or.inr (Or.inr (Or.inr (Or.inr (Or.inr hv)))))⟩,
    ?_, save_event_invalid dcp eenv now nextId erows source_id etype tm emn flds hv2,
    ⟨?_, read_event_history_snd_empty cap renv ef erows source_id start end_ nb evfilter now
      (Or.inr (Or.inr (Or.inr (Or.inr (Or.inr hv2)))))⟩⟩
  · simp [new_historized_node, hv]
  · simp [read_node_history, hv]
  · simp [new_historized_event, hv2]
  · simp [read_event_history, hv2]

/-- Witness for C1 amended at a concrete rejected identifier (a space is
neither a word character nor a hyphen). -/
theorem c1_invalid_name_amended_witness :
    (save_node_value [] ⟨false, false, false⟩ 0 0 [] ⟨1, UaIdentifier.str ("a b")⟩
      ⟨⟨.int 0, "Int64"⟩, 0, 0, 0⟩).calls = [] ∧
    (read_event_history 10000 ⟨true, false, false, false, false⟩ [] []
      ⟨1, UaIdentifier.str ("a b")⟩ none none none ⟨[]⟩ 0).2 = ([], none) := by
  have h := c1_invalid_name_amended [] [] ⟨false, false, false⟩ ⟨false, false, false, []⟩
    ⟨true, false, false, false, false⟩ ⟨none⟩ 10000 0 0 [] []
    ⟨1, UaIdentifier.str ("a b")⟩ ⟨1, UaIdentifier.str ("a b")⟩
    ⟨⟨.int 0, "Int64"⟩, 0, 0, 0⟩ none none none ⟨[]⟩ [] none 0 none none
    ⟨1, UaIdentifier.str ("a b")⟩ [] (by decide) (by decide)
  exact ⟨h.2.1.1, h.2.2.2.2.2.2⟩

end Uapg
